import Mathlib

/-!
# ipfs-config-5-6: datastore configuration migration (main.go)

A shallow embedding of `main.go`: the case-insensitive key resolver `lcMap`,
the spec builder `DatastoreSpec`, the forward transform `ver5to6`, the
backward transform `ver6to5` and the orchestrator `convert`.

Modelling conventions.

* A decoded JSON value (`interface{}` as filled in by `encoding/json`) is a
  `JVal`; the nil interface is `JVal.null`.
* A Go map is an association list.  The order of the list stands for the
  order in which one `range` loop visits the entries, so a statement
  quantified over all lists covers every iteration order.  A list is a
  well-formed Go map when its keys are pairwise distinct.
* Go maps are references.  The transforms mutate their argument in place and
  return an `error`; the embedding returns the final content of the map
  together with the optional error.
* `strings.ToLower` is a parameter `lower : String → String` of every
  definition that calls it; `asciiLower` is its restriction to ASCII letters
  and is used for concrete evaluations.
* A failed type assertion panics with a `runtime.TypeAssertionError`; the
  deferred `recover` of `ver6to5` turns it into an ordinary error.
-/

namespace Migrate

/-- Decoded JSON value: what `encoding/json` stores in an `interface{}`. -/
inductive JVal where
  | null
  | bool (b : Bool)
  | num (x : ℚ)
  | str (s : String)
  | arr (xs : List JVal)
  | obj (kvs : List (String × JVal))

/-- Go `map[string]α` as an association list. -/
abbrev GoMap (α : Type) := List (String × α)

/-- Go `map[string]interface{}`. -/
abbrev Obj := GoMap JVal

/-- Comma-ok map read `v, ok := m[k]`. -/
def mapGet? {α : Type} : GoMap α → String → Option α
  | [], _ => none
  | (k', v) :: rest, k => if k' = k then some v else mapGet? rest k

/-- Map assignment `m[k] = v`. -/
def mapSet {α : Type} : GoMap α → String → α → GoMap α
  | [], k, v => [(k, v)]
  | (k', v') :: rest, k, v =>
    if k' = k then (k, v) :: rest else (k', v') :: mapSet rest k v

/-- Builtin `delete(m, k)`. -/
def mapDelete {α : Type} : GoMap α → String → GoMap α
  | [], _ => []
  | (k', v) :: rest, k => if k' = k then mapDelete rest k else (k', v) :: mapDelete rest k

/-- Index expression `m[k]` on a `map[string]interface{}`: nil when the key is absent. -/
def index (m : Obj) (k : String) : JVal :=
  (mapGet? m k).getD JVal.null

/-- Index expression `m[k]` on a `map[string]string`: the empty string when the key is absent. -/
def indexStr (m : GoMap String) (k : String) : String :=
  (mapGet? m k).getD ""

/-- Key set of a map, in iteration order. -/
def keys {α : Type} (m : GoMap α) : List String :=
  m.map Prod.fst

/-- Source function `lcMap` (main.go 97-103): one pass over the keys, each
stored under its lowercase form. -/
def lcMap {α : Type} (lower : String → String) (conf : GoMap α) : GoMap String :=
  conf.foldl (fun fromLC kv => mapSet fromLC (lower kv.1) kv.1) []

/-- ASCII restriction of `strings.ToLower`. -/
def asciiLower (s : String) : String :=
  String.mk (s.data.map Char.toLower)

/-- Source function `DatastoreSpec` (main.go 140-167). -/
def DatastoreSpec (sync : Bool) : Obj :=
  [ ("type", JVal.str "mount"),
    ("mounts", JVal.arr [
      JVal.obj [
        ("mountpoint", JVal.str "/blocks"),
        ("type", JVal.str "measure"),
        ("prefix", JVal.str "flatfs.datastore"),
        ("child", JVal.obj [
          ("type", JVal.str "flatfs"),
          ("path", JVal.str "blocks"),
          ("sync", JVal.bool sync),
          ("shardFunc", JVal.str "/repo/flatfs/shard/v1/next-to-last/2")])],
      JVal.obj [
        ("mountpoint", JVal.str "/"),
        ("type", JVal.str "measure"),
        ("prefix", JVal.str "leveldb.datastore"),
        ("child", JVal.obj [
          ("type", JVal.str "levelds"),
          ("path", JVal.str "datastore"),
          ("compression", JVal.str "none")])]]) ]

mutual
/-- Library function `reflect.DeepEqual` on decoded JSON values: same dynamic
type, and equal contents; slices element by element, maps by length and by
looking every key of the first map up in the second. -/
def deepEqual : JVal → JVal → Bool
  | JVal.null, JVal.null => true
  | JVal.bool a, JVal.bool b => a == b
  | JVal.num a, JVal.num b => a == b
  | JVal.str a, JVal.str b => a == b
  | JVal.arr xs, JVal.arr ys => deepEqualSlice xs ys
  | JVal.obj m1, JVal.obj m2 => m1.length == m2.length && deepEqualMap m1 m2
  | _, _ => false
/-- Slice case of `reflect.DeepEqual`. -/
def deepEqualSlice : List JVal → List JVal → Bool
  | [], [] => true
  | x :: xs, y :: ys => deepEqual x y && deepEqualSlice xs ys
  | _, _ => false
/-- Map case of `reflect.DeepEqual`: every key of the first map is in the second with a deep-equal value. -/
def deepEqualMap : List (String × JVal) → List (String × JVal) → Bool
  | [], _ => true
  | (k, v) :: rest, m2 =>
    (match mapGet? m2 k with
     | some w => deepEqual v w
     | none => false) && deepEqualMap rest m2
end

/-- Dynamic Go types of decoded JSON values. -/
inductive GoType where
  | bool
  | float64
  | string
  | slice
  | map
  deriving DecidableEq, Repr

/-- Dynamic type of a value; `none` for the nil interface. -/
def JVal.dynType : JVal → Option GoType
  | JVal.null => none
  | JVal.bool _ => some GoType.bool
  | JVal.num _ => some GoType.float64
  | JVal.str _ => some GoType.string
  | JVal.arr _ => some GoType.slice
  | JVal.obj _ => some GoType.map

/-- Panic value `runtime.TypeAssertionError` of a failed `x.(T)`: the dynamic
type found and the type asserted. -/
structure TypeAssertionError where
  concrete : Option GoType
  asserted : GoType
  deriving DecidableEq, Repr

/-- Type assertion `x.(map[string]interface{})`. -/
def assertMap : JVal → Except TypeAssertionError Obj
  | JVal.obj m => Except.ok m
  | v => Except.error ⟨v.dynType, GoType.map⟩

/-- Type assertion `x.([]interface{})`. -/
def assertSlice : JVal → Except TypeAssertionError (List JVal)
  | JVal.arr xs => Except.ok xs
  | v => Except.error ⟨v.dynType, GoType.slice⟩

/-- Type assertion `x.(string)`. -/
def assertString : JVal → Except TypeAssertionError String
  | JVal.str s => Except.ok s
  | v => Except.error ⟨v.dynType, GoType.string⟩

/-- Type assertion `x.(bool)`. -/
def assertBool : JVal → Except TypeAssertionError Bool
  | JVal.bool b => Except.ok b
  | v => Except.error ⟨v.dynType, GoType.bool⟩

/-- Errors returned by the two transforms, one constructor per `fmt.Errorf`. -/
inductive ConvError where
  | unsupportedNoSync (noSyncVal : JVal)
  | unsupportedType (dsType : String)
  | unknownMountpoint
  | specNotSupported
  | incompatible (r : TypeAssertionError)

/-- Fixed text of each error's format string, up to its argument. -/
def ConvError.phrase : ConvError → String
  | ConvError.unsupportedNoSync _ => "unsupported value for Datastore.NoSync fields: "
  | ConvError.unsupportedType _ => "unsupported value for Datastore.Type fields: "
  | ConvError.unknownMountpoint => "unknown mountpoint"
  | ConvError.specNotSupported => "Datastore.Spec field not of a supported value, can't downgrade"
  | ConvError.incompatible _ => "incompatible config detected, downgrade not possible: "

/-- Source function `ver5to6` (main.go 64-92).  Returns the content of `ds`
when the function returns, and the error. -/
def ver5to6 (lower : String → String) (ds : Obj) : Obj × Option ConvError :=
  let fromLC := lcMap lower ds
  let noSyncVal := index ds (indexStr fromLC "nosync")
  let noSyncVal := match noSyncVal with
    | JVal.null => JVal.bool false
    | v => v
  match noSyncVal with
  | JVal.bool noSync =>
    let ds := mapDelete ds (indexStr fromLC "nosync")
    let dsTypeVal := index ds (indexStr fromLC "type")
    let dsTypeVal := match dsTypeVal with
      | JVal.null => JVal.str ""
      | v => v
    match dsTypeVal with
    | JVal.str dsType =>
      if dsType ≠ "default" ∧ dsType ≠ "leveldb" ∧ dsType ≠ "" then
        (ds, some (ConvError.unsupportedType dsType))
      else
        let ds := mapDelete ds (indexStr fromLC "type")
        let ds := mapDelete ds (indexStr fromLC "path")
        let ds := mapDelete ds (indexStr fromLC "params")
        (mapSet ds "Spec" (JVal.obj (DatastoreSpec (!noSync))), none)
    | _ => (ds, some (ConvError.unsupportedType ""))
  | v => (ds, some (ConvError.unsupportedNoSync v))

/-- Loop variables of `ver6to5` (main.go 114-115). -/
structure Scan where
  root : JVal
  blocks : JVal
  sync : Bool

/-- Ways the loop over the mounts ends. -/
inductive ScanResult where
  | done (st : Scan)
  | unknownMountpoint
  | fault (r : TypeAssertionError)

/-- The loop `for _, mount := range mounts` of `ver6to5` (main.go 116-126). -/
def scanMounts : List JVal → Scan → ScanResult
  | [], st => ScanResult.done st
  | mount :: rest, st =>
    match assertMap mount with
    | Except.error r => ScanResult.fault r
    | Except.ok m =>
      match assertString (index m "mountpoint") with
      | Except.error r => ScanResult.fault r
      | Except.ok mountpoint =>
        if mountpoint = "/blocks" then
          match assertMap (index m "child") with
          | Except.error r => ScanResult.fault r
          | Except.ok child =>
            match assertBool (index child "sync") with
            | Except.error r => ScanResult.fault r
            | Except.ok sync => scanMounts rest { st with sync := sync, blocks := mount }
        else if mountpoint = "/" then
          scanMounts rest { st with root := mount }
        else
          ScanResult.unknownMountpoint

/-- The key `fromLC["spec"]` that `ver6to5` reads and deletes (main.go 111-112, 133). -/
def specKey (lower : String → String) (ds : Obj) : String :=
  indexStr (lcMap lower ds) "spec"

/-- Source function `ver6to5` (main.go 105-138).  Returns the content of `ds`
when the function returns, and the error.  `spec` aliases the map stored in
`ds`, so the assignment to `spec["mounts"]` is written back into `ds`. -/
def ver6to5 (lower : String → String) (ds : Obj) : Obj × Option ConvError :=
  let key := specKey lower ds
  match assertMap (index ds key) with
  | Except.error r => (ds, some (ConvError.incompatible r))
  | Except.ok spec =>
    match assertSlice (index spec "mounts") with
    | Except.error r => (ds, some (ConvError.incompatible r))
    | Except.ok mounts =>
      match scanMounts mounts ⟨JVal.null, JVal.null, true⟩ with
      | ScanResult.fault r => (ds, some (ConvError.incompatible r))
      | ScanResult.unknownMountpoint => (ds, some ConvError.unknownMountpoint)
      | ScanResult.done st =>
        let spec1 := mapSet spec "mounts" (JVal.arr [st.blocks, st.root])
        let ds1 := mapSet ds key (JVal.obj spec1)
        if deepEqual (JVal.obj spec1) (JVal.obj (DatastoreSpec st.sync)) then
          let ds2 := mapDelete ds1 key
          let ds3 := mapSet ds2 "Type" (JVal.str "leveldb")
          let ds4 := mapSet ds3 "Params" JVal.null
          let ds5 := mapSet ds4 "NoSync" (JVal.bool (!st.sync))
          (ds5, none)
        else
          (ds1, some ConvError.specNotSupported)

/-- Ways `convert` ends once the input has been read and parsed (main.go 48-61). -/
inductive ConvertResult where
  | emitted (conf : Obj)
  | failed (err : ConvError)
  | panicked (r : TypeAssertionError)

/-- Source function `convert` (main.go 38-62) from line 48 on: `conf` is the
document `json.Unmarshal` produced.  `emitted conf` stands for the return of
nil after `json.MarshalIndent(conf)` and a newline have been written,
`failed err` for the return of the transform's error before anything is
written, and `panicked r` for the failed type assertion of line 49, which no
deferred function of `convert` or `main` recovers. -/
def convert (lower : String → String) (conf : Obj)
    (convFunc : Obj → Obj × Option ConvError) : ConvertResult :=
  let fromLC := lcMap lower conf
  match assertMap (index conf (indexStr fromLC "datastore")) with
  | Except.error r => ConvertResult.panicked r
  | Except.ok ds =>
    match convFunc ds with
    | (_, some err) => ConvertResult.failed err
    | (ds1, none) =>
      ConvertResult.emitted (mapSet conf (indexStr fromLC "datastore") (JVal.obj ds1))

/-! ## Specification-side vocabulary -/

/-- No two keys of the map share a lowercase form (so the keys are pairwise distinct too). -/
def NoCaseClash {α : Type} (lower : String → String) (m : GoMap α) : Prop :=
  ((keys m).map lower).Nodup

instance {α : Type} (lower : String → String) (m : GoMap α) : Decidable (NoCaseClash lower m) := by
  unfold NoCaseClash; infer_instance

/-- The value is null or a boolean. -/
def JVal.isNullOrBool : JVal → Bool
  | JVal.null => true
  | JVal.bool _ => true
  | _ => false

/-- The value is null or one of the strings "default", "leveldb", "". -/
def JVal.isNullOrKnownType : JVal → Bool
  | JVal.null => true
  | JVal.str s => s = "default" ∨ s = "leveldb" ∨ s = ""
  | _ => false

/-- The value under the key whose lowercase form is `l`; null when there is no such key. -/
def valueOf (lower : String → String) (ds : Obj) (l : String) : JVal :=
  match ds.find? (fun kv => decide (lower kv.1 = l)) with
  | some kv => kv.2
  | none => JVal.null

/-- The NoSync setting of an old-schema subtree as the spec words it: the
boolean under the key whose lowercase form is "nosync", false when there is
no such key or its value is null. -/
def noSyncOf (lower : String → String) (ds : Obj) : Bool :=
  match valueOf lower ds "nosync" with
  | JVal.bool b => b
  | _ => false

/-- Old-schema subtree accepted by the forward transform: every key is a
casing of NoSync, Type, Path or Params, no two keys share a lowercase form,
the NoSync value is absent, null or a boolean, and the Type value is absent,
null or one of "default", "leveldb", "". -/
def OldSchema (lower : String → String) (ds : Obj) : Prop :=
  (∀ k ∈ keys ds, lower k ∈ ["nosync", "type", "path", "params"]) ∧
  NoCaseClash lower ds ∧
  (valueOf lower ds "nosync").isNullOrBool = true ∧
  (valueOf lower ds "type").isNullOrKnownType = true

instance (lower : String → String) (ds : Obj) : Decidable (OldSchema lower ds) := by
  unfold OldSchema; infer_instance

/-- The mountpoint of a mounts entry, when the entry is a mapping with a string mountpoint. -/
def mountpointOf : JVal → Option String
  | JVal.obj m =>
    match index m "mountpoint" with
    | JVal.str s => some s
    | _ => none
  | _ => none

/-- The entry's mountpoint is a string other than "/blocks" and "/". -/
def hasUnknownMountpoint (e : JVal) : Bool :=
  match mountpointOf e with
  | some s => decide (s ≠ "/blocks" ∧ s ≠ "/")
  | none => false

/-- The boolean at `child.sync` of a mounts entry, when the entry is a mapping
whose child is a mapping holding a boolean sync. -/
def childSyncOf : JVal → Option Bool
  | JVal.obj m =>
    match index m "child" with
    | JVal.obj child =>
      match index child "sync" with
      | JVal.bool b => some b
      | _ => none
    | _ => none
  | _ => none

/-- The entry has the shape the traversal asserts: a mapping with a string
mountpoint and, when that mountpoint is "/blocks", a mapping child holding a
boolean sync. -/
def entryOk (e : JVal) : Bool :=
  match mountpointOf e with
  | some s => if s = "/blocks" then (childSyncOf e).isSome else true
  | none => false

/-- A mounts entry with mountpoint "/blocks" whose child is a mapping with boolean sync = s. -/
def IsBlocksMount (s : Bool) (e : JVal) : Prop :=
  mountpointOf e = some "/blocks" ∧ childSyncOf e = some s

/-- A mounts entry with mountpoint "/". -/
def IsRootMount (e : JVal) : Prop :=
  mountpointOf e = some "/"

/-- The "/blocks" entry of the mounts of `DatastoreSpec sync` (main.go 144-154). -/
def blocksMount (sync : Bool) : JVal :=
  JVal.obj [
    ("mountpoint", JVal.str "/blocks"),
    ("type", JVal.str "measure"),
    ("prefix", JVal.str "flatfs.datastore"),
    ("child", JVal.obj [
      ("type", JVal.str "flatfs"),
      ("path", JVal.str "blocks"),
      ("sync", JVal.bool sync),
      ("shardFunc", JVal.str "/repo/flatfs/shard/v1/next-to-last/2")])]

/-- The "/" entry of the mounts of `DatastoreSpec sync` (main.go 155-164). -/
def rootMount : JVal :=
  JVal.obj [
    ("mountpoint", JVal.str "/"),
    ("type", JVal.str "measure"),
    ("prefix", JVal.str "leveldb.datastore"),
    ("child", JVal.obj [
      ("type", JVal.str "levelds"),
      ("path", JVal.str "datastore"),
      ("compression", JVal.str "none")])]

/-- A "/blocks" entry that differs from the canonical one in its shard function only. -/
def otherShardMount (sync : Bool) : JVal :=
  JVal.obj [
    ("mountpoint", JVal.str "/blocks"),
    ("type", JVal.str "measure"),
    ("prefix", JVal.str "flatfs.datastore"),
    ("child", JVal.obj [
      ("type", JVal.str "flatfs"),
      ("path", JVal.str "blocks"),
      ("sync", JVal.bool sync),
      ("shardFunc", JVal.str "/repo/flatfs/shard/v1/prefix/2")])]

/-- The spec with the field `child.sync` of its first mounts entry removed. -/
def dropBlocksSync (spec : Obj) : Obj :=
  match index spec "mounts" with
  | JVal.arr (JVal.obj b :: rest) =>
    match index b "child" with
    | JVal.obj child =>
      mapSet spec "mounts"
        (JVal.arr (JVal.obj (mapSet b "child" (JVal.obj (mapDelete child "sync"))) :: rest))
    | _ => spec
  | _ => spec

/-- The last entry of the mounts sequence whose mountpoint is `mp`; null when there is none. -/
def lastMount (mp : String) (mounts : List JVal) : JVal :=
  ((mounts.filter (fun e => decide (mountpointOf e = some mp))).getLast?).getD JVal.null

/-- The map with the key `k1` respelled as `k2`, values and order kept. -/
def renameKey {α : Type} (k1 k2 : String) (m : GoMap α) : GoMap α :=
  m.map (fun kv => (if kv.1 = k1 then k2 else kv.1, kv.2))

/-! ## Go map operations -/

theorem mapGet?_mapSet {α : Type} (m : GoMap α) (k k' : String) (v : α) :
    mapGet? (mapSet m k v) k' = if k = k' then some v else mapGet? m k' := by
  induction m with
  | nil => simp [mapSet, mapGet?]
  | cons kv rest ih =>
    obtain ⟨a, b⟩ := kv
    by_cases h : a = k
    · subst h
      by_cases h2 : a = k' <;> simp [mapSet, mapGet?, h2]
    · by_cases h2 : a = k'
      · subst h2
        have h3 : ¬ k = a := fun e => h e.symm
        simp [mapSet, mapGet?, h, h3]
      · simp [mapSet, mapGet?, h, h2, ih]

theorem mapGet?_mapDelete {α : Type} (m : GoMap α) (k k' : String) :
    mapGet? (mapDelete m k) k' = if k = k' then none else mapGet? m k' := by
  induction m with
  | nil => simp [mapDelete, mapGet?]
  | cons kv rest ih =>
    obtain ⟨a, b⟩ := kv
    by_cases h : a = k
    · subst h
      by_cases h2 : a = k'
      · subst h2
        simpa [mapDelete, mapGet?] using ih
      · simp [mapDelete, mapGet?, h2, ih]
    · by_cases h2 : a = k'
      · subst h2
        have h3 : ¬ k = a := fun e => h e.symm
        simp [mapDelete, mapGet?, h, h3]
      · simp [mapDelete, mapGet?, h, h2, ih]

theorem mapGet?_eq_none {α : Type} (m : GoMap α) (k : String) (h : k ∉ keys m) :
    mapGet? m k = none := by
  induction m with
  | nil => rfl
  | cons kv rest ih =>
    obtain ⟨a, b⟩ := kv
    simp only [keys, List.map_cons, List.mem_cons, not_or] at h
    have h1 : ¬ a = k := fun e => h.1 e.symm
    simp only [mapGet?, h1, if_false]
    exact ih h.2

theorem mapGet?_of_mem {α : Type} (m : GoMap α) (k : String) (v : α)
    (hnd : (keys m).Nodup) (h : (k, v) ∈ m) : mapGet? m k = some v := by
  induction m with
  | nil => cases h
  | cons kv rest ih =>
    obtain ⟨a, b⟩ := kv
    simp only [keys, List.map_cons, List.nodup_cons] at hnd
    rcases List.mem_cons.mp h with h | h
    · cases h
      simp [mapGet?]
    · have hk : k ∈ List.map Prod.fst rest := List.mem_map.mpr ⟨(k, v), h, rfl⟩
      have h1 : ¬ a = k := fun e => hnd.1 (e ▸ hk)
      simp only [mapGet?, h1, if_false]
      exact ih hnd.2 h

theorem mem_of_mapGet? {α : Type} (m : GoMap α) (k : String) (v : α)
    (h : mapGet? m k = some v) : (k, v) ∈ m := by
  induction m with
  | nil => cases h
  | cons kv rest ih =>
    obtain ⟨a, b⟩ := kv
    by_cases h1 : a = k
    · subst h1
      simp only [mapGet?, if_true, Option.some.injEq] at h
      subst h
      exact List.mem_cons_self _ _
    · simp only [mapGet?, h1, if_false] at h
      exact List.mem_cons_of_mem _ (ih h)

theorem keys_mapSet_of_mem {α : Type} (m : GoMap α) (k : String) (v : α)
    (h : k ∈ keys m) : keys (mapSet m k v) = keys m := by
  induction m with
  | nil => cases h
  | cons kv rest ih =>
    obtain ⟨a, b⟩ := kv
    by_cases h1 : a = k
    · subst h1
      simp [mapSet, keys]
    · have h2 : k ∈ keys rest := by
        simp only [keys, List.map_cons, List.mem_cons] at h
        rcases h with h | h
        · exact absurd h.symm h1
        · exact h
      have := ih h2
      simp only [keys] at this
      simp [mapSet, keys, h1, this]

theorem mem_keys_of_mapGet? {α : Type} (m : GoMap α) (k : String) (v : α)
    (h : mapGet? m k = some v) : k ∈ keys m :=
  List.mem_map.mpr ⟨(k, v), mem_of_mapGet? m k v h, rfl⟩

/-! ## The key resolver -/

theorem lcFold_get_of_not_mem {α : Type} (lower : String → String) (conf : GoMap α)
    (acc : GoMap String) (l : String) (h : ∀ k ∈ keys conf, lower k ≠ l) :
    mapGet? (conf.foldl (fun fromLC kv => mapSet fromLC (lower kv.1) kv.1) acc) l
      = mapGet? acc l := by
  induction conf generalizing acc with
  | nil => rfl
  | cons kv rest ih =>
    simp only [List.foldl_cons]
    rw [ih]
    · rw [mapGet?_mapSet]
      have : lower kv.1 ≠ l := h kv.1 (by simp [keys])
      simp [this]
    · intro k hk
      exact h k (by simp only [keys, List.map_cons, List.mem_cons]; exact Or.inr hk)

theorem lcFold_get_of_mem {α : Type} (lower : String → String) (conf : GoMap α)
    (acc : GoMap String) (k : String) (hnd : NoCaseClash lower conf) (hk : k ∈ keys conf) :
    mapGet? (conf.foldl (fun fromLC kv => mapSet fromLC (lower kv.1) kv.1) acc) (lower k)
      = some k := by
  induction conf generalizing acc with
  | nil => cases hk
  | cons kv rest ih =>
    simp only [NoCaseClash, keys, List.map_cons, List.nodup_cons] at hnd
    simp only [List.foldl_cons]
    simp only [keys, List.map_cons, List.mem_cons] at hk
    by_cases hmem : k ∈ keys rest
    · exact ih _ hnd.2 hmem
    · have hk1 : k = kv.1 := by
        rcases hk with hk | hk
        · exact hk
        · exact absurd hk hmem
      subst hk1
      rw [lcFold_get_of_not_mem, mapGet?_mapSet]
      · simp
      · intro k' hk' e
        exact hnd.1 (e ▸ List.mem_map.mpr ⟨k', hk', rfl⟩)

theorem lcFold_get_some {α : Type} (lower : String → String) (conf : GoMap α)
    (acc : GoMap String) (l k : String)
    (h : mapGet? (conf.foldl (fun fromLC kv => mapSet fromLC (lower kv.1) kv.1) acc) l = some k) :
    (k ∈ keys conf ∧ lower k = l) ∨ mapGet? acc l = some k := by
  induction conf generalizing acc with
  | nil => exact Or.inr h
  | cons kv rest ih =>
    simp only [List.foldl_cons] at h
    rcases ih _ h with ⟨h1, h2⟩ | h1
    · exact Or.inl ⟨by simp only [keys, List.map_cons, List.mem_cons]; exact Or.inr h1, h2⟩
    · rw [mapGet?_mapSet] at h1
      by_cases e : lower kv.1 = l
      · simp only [e, if_true, Option.some.injEq] at h1
        subst h1
        exact Or.inl ⟨by simp [keys], e⟩
      · simp only [e, if_false] at h1
        exact Or.inr h1

theorem lcFold_get_ne_none {α : Type} (lower : String → String) (conf : GoMap α)
    (acc : GoMap String) (l : String)
    (h : mapGet? acc l ≠ none ∨ ∃ k ∈ keys conf, lower k = l) :
    mapGet? (conf.foldl (fun fromLC kv => mapSet fromLC (lower kv.1) kv.1) acc) l ≠ none := by
  induction conf generalizing acc with
  | nil =>
    rcases h with h | ⟨k, hk, _⟩
    · exact h
    · cases hk
  | cons kv rest ih =>
    simp only [List.foldl_cons]
    apply ih
    rw [mapGet?_mapSet]
    by_cases e : lower kv.1 = l
    · left; simp [e]
    · rcases h with h | ⟨k, hk, hl⟩
      · left; simpa [e] using h
      · simp only [keys, List.map_cons, List.mem_cons] at hk
        rcases hk with hk | hk
        · exact absurd (hk ▸ hl) e
        · exact Or.inr ⟨k, hk, hl⟩

/-- With no case clash, a key's lowercase form resolves to that key. -/
theorem indexStr_lcMap_of_mem {α : Type} (lower : String → String) (conf : GoMap α)
    (k : String) (hnd : NoCaseClash lower conf) (hk : k ∈ keys conf) :
    indexStr (lcMap lower conf) (lower k) = k := by
  simp [indexStr, lcMap, lcFold_get_of_mem lower conf [] k hnd hk]

/-- A name that no key lowercases to resolves to the empty string. -/
theorem indexStr_lcMap_of_not_mem {α : Type} (lower : String → String) (conf : GoMap α)
    (l : String) (h : ∀ k ∈ keys conf, lower k ≠ l) :
    indexStr (lcMap lower conf) l = "" := by
  simp [indexStr, lcMap, lcFold_get_of_not_mem lower conf [] l h, mapGet?]

/-- Whatever the iteration order, a name resolves to a key with that lowercase form or to "". -/
theorem indexStr_lcMap_cases {α : Type} (lower : String → String) (conf : GoMap α)
    (l : String) :
    (indexStr (lcMap lower conf) l ∈ keys conf ∧ lower (indexStr (lcMap lower conf) l) = l)
      ∨ ((∀ k ∈ keys conf, lower k ≠ l) ∧ indexStr (lcMap lower conf) l = "") := by
  by_cases h : ∀ k ∈ keys conf, lower k ≠ l
  · exact Or.inr ⟨h, indexStr_lcMap_of_not_mem lower conf l h⟩
  · left
    cases hg : mapGet? (lcMap lower conf) l with
    | none =>
      exfalso
      push_neg at h
      exact lcFold_get_ne_none lower conf [] l (Or.inr h) hg
    | some k =>
      rcases lcFold_get_some lower conf [] l k hg with h1 | h1
      · simpa [indexStr, hg] using h1
      · cases h1

theorem find?_of_mem_noClash {α : Type} (lower : String → String) (m : GoMap α)
    (k : String) (v : α) (hnd : NoCaseClash lower m) (h : (k, v) ∈ m) :
    m.find? (fun kv => decide (lower kv.1 = lower k)) = some (k, v) := by
  induction m with
  | nil => cases h
  | cons kv rest ih =>
    simp only [NoCaseClash, keys, List.map_cons, List.nodup_cons] at hnd
    rcases List.mem_cons.mp h with h | h
    · subst h
      simp [List.find?]
    · have hne : ¬ lower kv.1 = lower k := by
        intro e
        apply hnd.1
        rw [e]
        exact List.mem_map.mpr ⟨k, List.mem_map.mpr ⟨(k, v), h, rfl⟩, rfl⟩
      simp only [List.find?, hne, decide_False]
      exact ih hnd.2 h

theorem find?_none_of_no_key {α : Type} (lower : String → String) (m : GoMap α)
    (l : String) (h : ∀ k ∈ keys m, lower k ≠ l) :
    m.find? (fun kv => decide (lower kv.1 = l)) = none := by
  rw [List.find?_eq_none]
  intro kv hkv
  have := h kv.1 (List.mem_map.mpr ⟨kv, hkv, rfl⟩)
  simpa using this

theorem noClash_nodup_keys {α : Type} (lower : String → String) (m : GoMap α)
    (hnd : NoCaseClash lower m) : (keys m).Nodup :=
  List.Nodup.of_map lower hnd

/-- Reading through the resolver gives the value under the key with that
lowercase form, provided no two keys clash and the empty string is not a key. -/
theorem index_resolved (lower : String → String) (ds : Obj) (l : String)
    (hnd : NoCaseClash lower ds) (h0 : "" ∉ keys ds) :
    index ds (indexStr (lcMap lower ds) l) = valueOf lower ds l := by
  rcases indexStr_lcMap_cases lower ds l with ⟨hk, hl⟩ | ⟨hno, he⟩
  · obtain ⟨⟨k, v⟩, hkv, hkk⟩ := List.mem_map.mp hk
    simp only at hkk
    rw [← hkk] at hl ⊢
    have h1 := mapGet?_of_mem ds k v (noClash_nodup_keys lower ds hnd) hkv
    have h2 := find?_of_mem_noClash lower ds k v hnd hkv
    rw [hl] at h2
    simp [index, valueOf, h1, h2]
  · rw [he]
    simp [index, valueOf, mapGet?_eq_none ds "" h0, find?_none_of_no_key lower ds l hno]

theorem mapDelete_eq_filter {α : Type} (m : GoMap α) (k : String) :
    mapDelete m k = m.filter (fun kv => decide (kv.1 ≠ k)) := by
  induction m with
  | nil => rfl
  | cons kv rest ih =>
    obtain ⟨a, b⟩ := kv
    by_cases h : a = k <;> simp [mapDelete, List.filter, h, ih]

theorem index_mapDelete (m : Obj) (k k' : String) :
    index (mapDelete m k) k' = if k = k' then JVal.null else index m k' := by
  unfold index
  rw [mapGet?_mapDelete]
  split <;> rfl

theorem index_resolved_after_delete (lower : String → String) (ds : Obj) (l l' : String)
    (hnd : NoCaseClash lower ds) (h0 : "" ∉ keys ds) (hne : l ≠ l') :
    index (mapDelete ds (indexStr (lcMap lower ds) l)) (indexStr (lcMap lower ds) l')
      = valueOf lower ds l' := by
  rw [index_mapDelete]
  split
  · rename_i heq
    rcases indexStr_lcMap_cases lower ds l' with ⟨hk', hl'⟩ | ⟨hno, _⟩
    · exfalso
      rcases indexStr_lcMap_cases lower ds l with ⟨_, hl⟩ | ⟨_, he⟩
      · rw [heq, hl'] at hl
        exact hne hl.symm
      · rw [← heq, he] at hk'
        exact h0 hk'
    · simp [valueOf, find?_none_of_no_key lower ds l' hno]
  · exact index_resolved lower ds l' hnd h0

theorem mapDelete4_eq_nil {α : Type} (m : GoMap α) (a b c d : String)
    (h : ∀ k ∈ keys m, k = a ∨ k = b ∨ k = c ∨ k = d) :
    mapDelete (mapDelete (mapDelete (mapDelete m a) b) c) d = [] := by
  simp only [mapDelete_eq_filter, List.filter_filter, List.filter_eq_nil_iff]
  intro kv hkv
  have := h kv.1 (List.mem_map.mpr ⟨kv, hkv, rfl⟩)
  simp only [ne_eq, Bool.and_eq_true, decide_eq_true_eq, not_and, not_not]
  rcases this with h | h | h | h <;> simp [h]

/-- The forward transform on an old-schema subtree: only `Spec` remains. -/
theorem ver5to6_oldSchema_eq (lower : String → String) (hl0 : lower "" = "") (ds : Obj)
    (h : OldSchema lower ds) :
    ver5to6 lower ds = ([("Spec", JVal.obj (DatastoreSpec (!(noSyncOf lower ds))))], none) := by
  obtain ⟨hkeys, hnd, hns, hty⟩ := h
  have h0 : "" ∉ keys ds := by
    intro hm
    have := hkeys "" hm
    rw [hl0] at this
    revert this
    decide
  have hall : ∀ k ∈ keys ds,
      k = indexStr (lcMap lower ds) "nosync" ∨ k = indexStr (lcMap lower ds) "type" ∨
      k = indexStr (lcMap lower ds) "path" ∨ k = indexStr (lcMap lower ds) "params" := by
    intro k hk
    have hr := indexStr_lcMap_of_mem lower ds k hnd hk
    have := hkeys k hk
    simp only [List.mem_cons, List.mem_singleton, List.not_mem_nil, or_false] at this
    rcases this with e | e | e | e <;> rw [e] at hr <;> simp [hr]
  have hdel := mapDelete4_eq_nil ds _ _ _ _ hall
  have hN := index_resolved lower ds "nosync" hnd h0
  have hT := index_resolved_after_delete lower ds "nosync" "type" hnd h0 (by decide)
  unfold ver5to6
  simp only [hN, hT, hdel]
  unfold noSyncOf
  cases hv : valueOf lower ds "nosync" with
  | null =>
    cases ht : valueOf lower ds "type" with
    | null => simp [mapSet]
    | str t =>
      rw [ht] at hty
      have : t = "default" ∨ t = "leveldb" ∨ t = "" := by simpa [JVal.isNullOrKnownType] using hty
      rcases this with e | e | e <;> subst e <;> simp [mapSet]
    | bool _ => rw [ht] at hty; cases hty
    | num _ => rw [ht] at hty; cases hty
    | arr _ => rw [ht] at hty; cases hty
    | obj _ => rw [ht] at hty; cases hty
  | bool b =>
    cases ht : valueOf lower ds "type" with
    | null => simp [mapSet]
    | str t =>
      rw [ht] at hty
      have : t = "default" ∨ t = "leveldb" ∨ t = "" := by simpa [JVal.isNullOrKnownType] using hty
      rcases this with e | e | e <;> subst e <;> simp [mapSet]
    | bool _ => rw [ht] at hty; cases hty
    | num _ => rw [ht] at hty; cases hty
    | arr _ => rw [ht] at hty; cases hty
    | obj _ => rw [ht] at hty; cases hty
  | num _ => rw [hv] at hns; cases hns
  | str _ => rw [hv] at hns; cases hns
  | arr _ => rw [hv] at hns; cases hns
  | obj _ => rw [hv] at hns; cases hns

/-- The builder's output in terms of its two mounts entries. -/
theorem DatastoreSpec_eq_mounts (sync : Bool) :
    DatastoreSpec sync
      = [("type", JVal.str "mount"), ("mounts", JVal.arr [blocksMount sync, rootMount])] :=
  rfl

theorem specKey_singleton (lower : String → String) (k : String) (v : JVal)
    (hk : lower k = "spec") : specKey lower [(k, v)] = k := by
  simp [specKey, lcMap, mapSet, indexStr, mapGet?, hk]

/-- The backward transform on the builder's output stored under any casing of the spec key. -/
theorem ver6to5_canonical_eq (lower : String → String) (k : String) (hk : lower k = "spec")
    (sync : Bool) :
    ver6to5 lower [(k, JVal.obj (DatastoreSpec sync))]
      = ([("Type", JVal.str "leveldb"), ("Params", JVal.null), ("NoSync", JVal.bool (!sync))],
          none) := by
  unfold ver6to5
  rw [specKey_singleton lower k _ hk]
  cases sync <;>
  simp [index, mapGet?, DatastoreSpec, assertMap, assertSlice, scanMounts, assertString,
    assertBool, deepEqual, deepEqualMap, deepEqualSlice, mapDelete, mapSet]

/-! ## The traversal of the mounts -/

theorem lcMap_eq_fold_keys {α : Type} (lower : String → String) (conf : GoMap α) :
    lcMap lower conf = (keys conf).foldl (fun fromLC k => mapSet fromLC (lower k) k) [] := by
  simp [lcMap, keys, List.foldl_map]

theorem specKey_mapSet (lower : String → String) (ds : Obj) (k : String) (v : JVal)
    (hk : k ∈ keys ds) : specKey lower (mapSet ds k v) = specKey lower ds := by
  simp [specKey, lcMap_eq_fold_keys, keys_mapSet_of_mem ds k v hk]

theorem index_mapSet (m : Obj) (k k' : String) (v : JVal) :
    index (mapSet m k v) k' = if k = k' then v else index m k' := by
  unfold index
  rw [mapGet?_mapSet]
  split <;> rfl

theorem mapSet_mapSet {α : Type} (m : GoMap α) (k : String) (v w : α) :
    mapSet (mapSet m k v) k w = mapSet m k w := by
  induction m with
  | nil => simp [mapSet]
  | cons kv rest ih =>
    obtain ⟨a, b⟩ := kv
    by_cases h : a = k
    · subst h; simp [mapSet]
    · simp [mapSet, h, ih]

theorem mem_keys_of_index_obj (ds : Obj) (k : String) (spec : Obj)
    (h : index ds k = JVal.obj spec) : k ∈ keys ds := by
  unfold index at h
  cases hg : mapGet? ds k with
  | none => rw [hg] at h; cases h
  | some v => exact mem_keys_of_mapGet? ds k v hg

theorem mountpointOf_eq_some (e : JVal) (s : String) (h : mountpointOf e = some s) :
    ∃ m, e = JVal.obj m ∧ index m "mountpoint" = JVal.str s := by
  cases e with
  | obj m =>
    refine ⟨m, rfl, ?_⟩
    simp only [mountpointOf] at h
    cases hv : index m "mountpoint" with
    | str t => rw [hv] at h; simp only [Option.some.injEq] at h; rw [h]
    | null => rw [hv] at h; cases h
    | bool _ => rw [hv] at h; cases h
    | num _ => rw [hv] at h; cases h
    | arr _ => rw [hv] at h; cases h
    | obj _ => rw [hv] at h; cases h
  | null => cases h
  | bool _ => cases h
  | num _ => cases h
  | str _ => cases h
  | arr _ => cases h

theorem childSyncOf_eq_some (m : Obj) (b : Bool) (h : childSyncOf (JVal.obj m) = some b) :
    ∃ child, index m "child" = JVal.obj child ∧ index child "sync" = JVal.bool b := by
  simp only [childSyncOf] at h
  cases hc : index m "child" with
  | obj child =>
    refine ⟨child, rfl, ?_⟩
    rw [hc] at h
    simp only at h
    cases hs : index child "sync" with
    | bool t => rw [hs] at h; simp only [Option.some.injEq] at h; rw [h]
    | null => rw [hs] at h; cases h
    | num _ => rw [hs] at h; cases h
    | str _ => rw [hs] at h; cases h
    | arr _ => rw [hs] at h; cases h
    | obj _ => rw [hs] at h; cases h
  | null => rw [hc] at h; cases h
  | bool _ => rw [hc] at h; cases h
  | num _ => rw [hc] at h; cases h
  | str _ => rw [hc] at h; cases h
  | arr _ => rw [hc] at h; cases h

theorem scanMounts_cons_root (e : JVal) (rest : List JVal) (st : Scan) (h : IsRootMount e) :
    scanMounts (e :: rest) st = scanMounts rest { st with root := e } := by
  obtain ⟨m, rfl, hm⟩ := mountpointOf_eq_some e "/" h
  simp [scanMounts, assertMap, assertString, hm]

theorem scanMounts_cons_blocks (e : JVal) (rest : List JVal) (st : Scan) (s : Bool)
    (h : IsBlocksMount s e) :
    scanMounts (e :: rest) st = scanMounts rest { st with sync := s, blocks := e } := by
  obtain ⟨m, rfl, hm⟩ := mountpointOf_eq_some e "/blocks" h.1
  obtain ⟨child, hc, hs⟩ := childSyncOf_eq_some m s h.2
  simp [scanMounts, assertMap, assertString, assertBool, hm, hc, hs]

theorem scanMounts_cons_unknown (e : JVal) (rest : List JVal) (st : Scan)
    (h : hasUnknownMountpoint e = true) :
    scanMounts (e :: rest) st = ScanResult.unknownMountpoint := by
  unfold hasUnknownMountpoint at h
  cases hmp : mountpointOf e with
  | none => rw [hmp] at h; cases h
  | some s =>
    rw [hmp] at h
    simp only [ne_eq, decide_eq_true_eq] at h
    obtain ⟨m, rfl, hm⟩ := mountpointOf_eq_some e s hmp
    simp [scanMounts, assertMap, assertString, hm, h.1, h.2]

theorem entryOk_cases (e : JVal) (hok : entryOk e = true)
    (hk : hasUnknownMountpoint e = false) :
    IsRootMount e ∨ ∃ s, IsBlocksMount s e := by
  unfold entryOk at hok
  unfold hasUnknownMountpoint at hk
  cases hmp : mountpointOf e with
  | none => rw [hmp] at hok; cases hok
  | some s =>
    rw [hmp] at hok hk
    simp only [ne_eq, decide_eq_false_iff_not, not_and, not_not] at hk
    by_cases hb : s = "/blocks"
    · right
      subst hb
      simp only [if_true] at hok
      obtain ⟨b, hb⟩ := Option.isSome_iff_exists.mp hok
      exact ⟨b, hmp, hb⟩
    · left
      rw [hk hb] at hmp
      exact hmp

theorem scanMounts_cons_fault (e : JVal) (hbad : entryOk e = false) :
    ∃ r, ∀ rest st, scanMounts (e :: rest) st = ScanResult.fault r := by
  cases e with
  | obj m =>
    cases hm : index m "mountpoint" with
    | str s =>
      have hmp : mountpointOf (JVal.obj m) = some s := by simp [mountpointOf, hm]
      simp only [entryOk, hmp] at hbad
      by_cases hb : s = "/blocks"
      · subst hb
        simp only [if_true] at hbad
        cases hc : index m "child" with
        | obj child =>
          cases hs : index child "sync" with
          | bool b => simp [childSyncOf, hc, hs] at hbad
          | null => exact ⟨_, fun _ _ => by simp [scanMounts, assertMap, assertString, assertBool, hm, hc, hs]; rfl⟩
          | num _ => exact ⟨_, fun _ _ => by simp [scanMounts, assertMap, assertString, assertBool, hm, hc, hs]; rfl⟩
          | str _ => exact ⟨_, fun _ _ => by simp [scanMounts, assertMap, assertString, assertBool, hm, hc, hs]; rfl⟩
          | arr _ => exact ⟨_, fun _ _ => by simp [scanMounts, assertMap, assertString, assertBool, hm, hc, hs]; rfl⟩
          | obj _ => exact ⟨_, fun _ _ => by simp [scanMounts, assertMap, assertString, assertBool, hm, hc, hs]; rfl⟩
        | null => exact ⟨_, fun _ _ => by simp [scanMounts, assertMap, assertString, hm, hc]; rfl⟩
        | bool _ => exact ⟨_, fun _ _ => by simp [scanMounts, assertMap, assertString, hm, hc]; rfl⟩
        | num _ => exact ⟨_, fun _ _ => by simp [scanMounts, assertMap, assertString, hm, hc]; rfl⟩
        | str _ => exact ⟨_, fun _ _ => by simp [scanMounts, assertMap, assertString, hm, hc]; rfl⟩
        | arr _ => exact ⟨_, fun _ _ => by simp [scanMounts, assertMap, assertString, hm, hc]; rfl⟩
      · simp [hb] at hbad
    | null => exact ⟨_, fun _ _ => by simp [scanMounts, assertMap, assertString, hm]; rfl⟩
    | bool _ => exact ⟨_, fun _ _ => by simp [scanMounts, assertMap, assertString, hm]; rfl⟩
    | num _ => exact ⟨_, fun _ _ => by simp [scanMounts, assertMap, assertString, hm]; rfl⟩
    | arr _ => exact ⟨_, fun _ _ => by simp [scanMounts, assertMap, assertString, hm]; rfl⟩
    | obj _ => exact ⟨_, fun _ _ => by simp [scanMounts, assertMap, assertString, hm]; rfl⟩
  | null => exact ⟨_, fun _ _ => by simp [scanMounts, assertMap]; rfl⟩
  | bool _ => exact ⟨_, fun _ _ => by simp [scanMounts, assertMap]; rfl⟩
  | num _ => exact ⟨_, fun _ _ => by simp [scanMounts, assertMap]; rfl⟩
  | str _ => exact ⟨_, fun _ _ => by simp [scanMounts, assertMap]; rfl⟩
  | arr _ => exact ⟨_, fun _ _ => by simp [scanMounts, assertMap]; rfl⟩

/-- A malformed entry reached by the traversal makes it panic. -/
theorem scanMounts_fault_of_bad (pre : List JVal) (e : JVal) (post : List JVal) (st : Scan)
    (hpre : ∀ p ∈ pre, hasUnknownMountpoint p = false) (hbad : entryOk e = false) :
    ∃ r, scanMounts (pre ++ e :: post) st = ScanResult.fault r := by
  induction pre generalizing st with
  | nil =>
    obtain ⟨r, hr⟩ := scanMounts_cons_fault e hbad
    exact ⟨r, hr post st⟩
  | cons p pre ih =>
    have hp := hpre p (List.mem_cons_self _ _)
    have hpre' : ∀ q ∈ pre, hasUnknownMountpoint q = false :=
      fun q hq => hpre q (List.mem_cons_of_mem _ hq)
    cases hok : entryOk p with
    | false =>
      obtain ⟨r, hr⟩ := scanMounts_cons_fault p hok
      exact ⟨r, hr _ st⟩
    | true =>
      rcases entryOk_cases p hok hp with h | ⟨b, h⟩
      · rw [List.cons_append, scanMounts_cons_root p _ st h]
        exact ih _ hpre'
      · rw [List.cons_append, scanMounts_cons_blocks p _ st b h]
        exact ih _ hpre'

/-- An unknown mountpoint after well-shaped entries ends the traversal with the unknown-mountpoint return. -/
theorem scanMounts_unknown_of_ok (pre : List JVal) (e : JVal) (post : List JVal) (st : Scan)
    (hpre : ∀ p ∈ pre, entryOk p = true) (he : hasUnknownMountpoint e = true) :
    scanMounts (pre ++ e :: post) st = ScanResult.unknownMountpoint := by
  induction pre generalizing st with
  | nil => exact scanMounts_cons_unknown e post st he
  | cons p pre ih =>
    have hp := hpre p (List.mem_cons_self _ _)
    have hpre' : ∀ q ∈ pre, entryOk q = true :=
      fun q hq => hpre q (List.mem_cons_of_mem _ hq)
    cases hu : hasUnknownMountpoint p with
    | true => exact scanMounts_cons_unknown p _ st hu
    | false =>
      rcases entryOk_cases p hp hu with h | ⟨b, h⟩
      · rw [List.cons_append, scanMounts_cons_root p _ st h]
        exact ih _ hpre'
      · rw [List.cons_append, scanMounts_cons_blocks p _ st b h]
        exact ih _ hpre'

/-- With an unknown mountpoint anywhere in the sequence, the traversal never completes. -/
theorem scanMounts_not_done_of_unknown (ms : List JVal) (e : JVal) (st : Scan)
    (hmem : e ∈ ms) (he : hasUnknownMountpoint e = true) :
    scanMounts ms st = ScanResult.unknownMountpoint ∨ ∃ r, scanMounts ms st = ScanResult.fault r := by
  induction ms generalizing st with
  | nil => cases hmem
  | cons p ms ih =>
    cases hok : entryOk p with
    | false =>
      obtain ⟨r, hr⟩ := scanMounts_cons_fault p hok
      exact Or.inr ⟨r, hr _ st⟩
    | true =>
      cases hu : hasUnknownMountpoint p with
      | true => exact Or.inl (scanMounts_cons_unknown p _ st hu)
      | false =>
        have hmem' : e ∈ ms := by
          rcases List.mem_cons.mp hmem with h | h
          · rw [h, hu] at he; cases he
          · exact h
        rcases entryOk_cases p hok hu with h | ⟨b, h⟩
        · rw [scanMounts_cons_root p _ st h]
          exact ih _ hmem'
        · rw [scanMounts_cons_blocks p _ st b h]
          exact ih _ hmem'

/-! ## The backward transform, by the way the traversal ends -/

theorem ver6to5_of_not_map (lower : String → String) (ds : Obj)
    (h : ∀ spec, index ds (specKey lower ds) ≠ JVal.obj spec) :
    ∃ r, ver6to5 lower ds = (ds, some (ConvError.incompatible r)) := by
  unfold ver6to5
  cases hv : index ds (specKey lower ds) with
  | obj spec => exact absurd hv (h spec)
  | null => exact ⟨_, by simp [assertMap]; rfl⟩
  | bool _ => exact ⟨_, by simp [assertMap]; rfl⟩
  | num _ => exact ⟨_, by simp [assertMap]; rfl⟩
  | str _ => exact ⟨_, by simp [assertMap]; rfl⟩
  | arr _ => exact ⟨_, by simp [assertMap]; rfl⟩

theorem ver6to5_of_not_slice (lower : String → String) (ds spec : Obj)
    (hspec : index ds (specKey lower ds) = JVal.obj spec)
    (h : ∀ ms, index spec "mounts" ≠ JVal.arr ms) :
    ∃ r, ver6to5 lower ds = (ds, some (ConvError.incompatible r)) := by
  unfold ver6to5
  simp only [hspec, assertMap]
  cases hv : index spec "mounts" with
  | arr ms => exact absurd hv (h ms)
  | null => exact ⟨_, by simp [assertSlice]; rfl⟩
  | bool _ => exact ⟨_, by simp [assertSlice]; rfl⟩
  | num _ => exact ⟨_, by simp [assertSlice]; rfl⟩
  | str _ => exact ⟨_, by simp [assertSlice]; rfl⟩
  | obj _ => exact ⟨_, by simp [assertSlice]; rfl⟩

theorem ver6to5_of_fault (lower : String → String) (ds spec : Obj) (ms : List JVal)
    (r : TypeAssertionError)
    (hspec : index ds (specKey lower ds) = JVal.obj spec)
    (hms : index spec "mounts" = JVal.arr ms)
    (hscan : scanMounts ms ⟨JVal.null, JVal.null, true⟩ = ScanResult.fault r) :
    ver6to5 lower ds = (ds, some (ConvError.incompatible r)) := by
  unfold ver6to5
  simp only [hspec, assertMap, hms, assertSlice, hscan]

theorem ver6to5_of_unknown (lower : String → String) (ds spec : Obj) (ms : List JVal)
    (hspec : index ds (specKey lower ds) = JVal.obj spec)
    (hms : index spec "mounts" = JVal.arr ms)
    (hscan : scanMounts ms ⟨JVal.null, JVal.null, true⟩ = ScanResult.unknownMountpoint) :
    ver6to5 lower ds = (ds, some ConvError.unknownMountpoint) := by
  unfold ver6to5
  simp only [hspec, assertMap, hms, assertSlice, hscan]

theorem ver6to5_of_done (lower : String → String) (ds spec : Obj) (ms : List JVal)
    (st : Scan)
    (hspec : index ds (specKey lower ds) = JVal.obj spec)
    (hms : index spec "mounts" = JVal.arr ms)
    (hscan : scanMounts ms ⟨JVal.null, JVal.null, true⟩ = ScanResult.done st) :
    ver6to5 lower ds =
      if deepEqual (JVal.obj (mapSet spec "mounts" (JVal.arr [st.blocks, st.root])))
          (JVal.obj (DatastoreSpec st.sync)) then
        (mapSet (mapSet (mapSet (mapDelete
            (mapSet ds (specKey lower ds)
              (JVal.obj (mapSet spec "mounts" (JVal.arr [st.blocks, st.root]))))
            (specKey lower ds)) "Type" (JVal.str "leveldb")) "Params" JVal.null)
            "NoSync" (JVal.bool (!st.sync)), none)
      else
        (mapSet ds (specKey lower ds)
          (JVal.obj (mapSet spec "mounts" (JVal.arr [st.blocks, st.root]))),
          some ConvError.specNotSupported) := by
  unfold ver6to5
  simp only [hspec, assertMap, hms, assertSlice, hscan]

/-- With no case clash, the value `ver6to5` reads as the spec is the value
under the key whose lowercase form is "spec". -/
theorem index_specKey_of_mem (lower : String → String) (ds : Obj) (k : String) (v : JVal)
    (hnd : NoCaseClash lower ds) (hmem : (k, v) ∈ ds) (hk : lower k = "spec") :
    specKey lower ds = k ∧ index ds (specKey lower ds) = v := by
  have hkeys : k ∈ keys ds := List.mem_map.mpr ⟨(k, v), hmem, rfl⟩
  have h1 : specKey lower ds = k := by
    have := indexStr_lcMap_of_mem lower ds k hnd hkeys
    rw [hk] at this
    exact this
  refine ⟨h1, ?_⟩
  rw [h1]
  simp [index, mapGet?_of_mem ds k v (noClash_nodup_keys lower ds hnd) hmem]

/-! ## Further facts on the two transforms -/

/-- On a subtree without case clash and without the key "", the forward
transform fails exactly when the NoSync value is neither null nor a boolean
or the Type value is neither null nor one of the three accepted strings. -/
theorem ver5to6_error_iff_of_no_empty_key (lower : String → String) (ds : Obj)
    (hnd : NoCaseClash lower ds) (h0 : "" ∉ keys ds) :
    (ver5to6 lower ds).2 ≠ none ↔
      ((valueOf lower ds "nosync").isNullOrBool = false ∨
        (valueOf lower ds "type").isNullOrKnownType = false) := by
  have hN := index_resolved lower ds "nosync" hnd h0
  have hT := index_resolved_after_delete lower ds "nosync" "type" hnd h0 (by decide)
  unfold ver5to6
  simp only [hN, hT]
  cases hv : valueOf lower ds "nosync" <;> cases ht : valueOf lower ds "type" <;>
    simp [JVal.isNullOrBool, JVal.isNullOrKnownType] <;>
    split <;> simp_all

/-- What a successful backward transform leaves: the resolved key is gone,
Type, Params and NoSync are bound, every other key is as before. -/
theorem ver6to5_success_frame (lower : String → String) (ds out : Obj)
    (h : ver6to5 lower ds = (out, none)) :
    ∃ spec ms st, index ds (specKey lower ds) = JVal.obj spec ∧
      index spec "mounts" = JVal.arr ms ∧
      scanMounts ms ⟨JVal.null, JVal.null, true⟩ = ScanResult.done st ∧
      deepEqual (JVal.obj (mapSet spec "mounts" (JVal.arr [st.blocks, st.root])))
        (JVal.obj (DatastoreSpec st.sync)) = true ∧
      ∀ k, mapGet? out k =
        if k = "NoSync" then some (JVal.bool (!st.sync))
        else if k = "Params" then some JVal.null
        else if k = "Type" then some (JVal.str "leveldb")
        else if k = specKey lower ds then none
        else mapGet? ds k := by
  cases hv : index ds (specKey lower ds) with
  | obj spec =>
    cases hm : index spec "mounts" with
    | arr ms =>
      cases hs : scanMounts ms ⟨JVal.null, JVal.null, true⟩ with
      | done st =>
        rw [ver6to5_of_done lower ds spec ms st hv hm hs] at h
        refine ⟨spec, ms, st, rfl, hm, hs, ?_⟩
        split at h
        · rename_i hde
          refine ⟨hde, ?_⟩
          simp only [Prod.mk.injEq, and_true] at h
          intro k
          rw [← h]
          simp only [mapGet?_mapSet, mapGet?_mapDelete]
          by_cases h1 : k = "NoSync"
          · simp [h1]
          · by_cases h2 : k = "Params"
            · simp [h2]
            · by_cases h3 : k = "Type"
              · simp [h3]
              · have h1' : ¬ "NoSync" = k := fun e => h1 e.symm
                have h2' : ¬ "Params" = k := fun e => h2 e.symm
                have h3' : ¬ "Type" = k := fun e => h3 e.symm
                by_cases h4 : k = specKey lower ds
                · subst h4
                  simp [h1, h2, h3, h1', h2', h3']
                · simp [h1, h2, h3, h4, Ne.symm h1, Ne.symm h2, Ne.symm h3, Ne.symm h4]
        · simp at h
      | unknownMountpoint =>
        rw [ver6to5_of_unknown lower ds spec ms hv hm hs] at h
        simp at h
      | fault r =>
        rw [ver6to5_of_fault lower ds spec ms r hv hm hs] at h
        simp at h
    | null => obtain ⟨r, hr⟩ := ver6to5_of_not_slice lower ds spec hv (by simp [hm]); simp [hr] at h
    | bool _ => obtain ⟨r, hr⟩ := ver6to5_of_not_slice lower ds spec hv (by simp [hm]); simp [hr] at h
    | num _ => obtain ⟨r, hr⟩ := ver6to5_of_not_slice lower ds spec hv (by simp [hm]); simp [hr] at h
    | str _ => obtain ⟨r, hr⟩ := ver6to5_of_not_slice lower ds spec hv (by simp [hm]); simp [hr] at h
    | obj _ => obtain ⟨r, hr⟩ := ver6to5_of_not_slice lower ds spec hv (by simp [hm]); simp [hr] at h
  | null => obtain ⟨r, hr⟩ := ver6to5_of_not_map lower ds (by simp [hv]); simp [hr] at h
  | bool _ => obtain ⟨r, hr⟩ := ver6to5_of_not_map lower ds (by simp [hv]); simp [hr] at h
  | num _ => obtain ⟨r, hr⟩ := ver6to5_of_not_map lower ds (by simp [hv]); simp [hr] at h
  | str _ => obtain ⟨r, hr⟩ := ver6to5_of_not_map lower ds (by simp [hv]); simp [hr] at h
  | arr _ => obtain ⟨r, hr⟩ := ver6to5_of_not_map lower ds (by simp [hv]); simp [hr] at h


/-! ## The key resolver as a map -/

theorem mem_mapSet {α : Type} (m : GoMap α) (a : String) (b : α) (e : String × α)
    (h : e ∈ mapSet m a b) : e = (a, b) ∨ e ∈ m := by
  induction m with
  | nil => simpa [mapSet] using h
  | cons kv rest ih =>
    obtain ⟨x, y⟩ := kv
    by_cases hx : x = a
    · simp only [mapSet, hx, if_true, List.mem_cons] at h
      rcases h with h | h
      · exact Or.inl h
      · exact Or.inr (List.mem_cons_of_mem _ h)
    · simp only [mapSet, hx, if_false, List.mem_cons] at h
      rcases h with h | h
      · exact Or.inr (h ▸ List.mem_cons_self _ _)
      · rcases ih h with h | h
        · exact Or.inl h
        · exact Or.inr (List.mem_cons_of_mem _ h)

theorem mem_keys_mapSet {α : Type} (m : GoMap α) (a : String) (b : α) (x : String) :
    x ∈ keys (mapSet m a b) ↔ x = a ∨ x ∈ keys m := by
  induction m with
  | nil => simp [mapSet, keys]
  | cons kv rest ih =>
    obtain ⟨y, z⟩ := kv
    simp only [keys] at ih
    by_cases hy : y = a
    · subst hy
      simp [mapSet, keys]
    · simp only [mapSet, hy, if_false, keys, List.map_cons, List.mem_cons, ih]
      constructor
      · rintro (h | h | h)
        · exact Or.inr (Or.inl h)
        · exact Or.inl h
        · exact Or.inr (Or.inr h)
      · rintro (h | h | h)
        · exact Or.inr (Or.inl h)
        · exact Or.inl h
        · exact Or.inr (Or.inr h)

theorem lcFold_mem {α : Type} (lower : String → String) (conf : GoMap α)
    (acc : GoMap String) (e : String × String)
    (h : e ∈ conf.foldl (fun fromLC kv => mapSet fromLC (lower kv.1) kv.1) acc) :
    e ∈ acc ∨ (e.2 ∈ keys conf ∧ lower e.2 = e.1) := by
  induction conf generalizing acc with
  | nil => exact Or.inl h
  | cons kv rest ih =>
    simp only [List.foldl_cons] at h
    rcases ih _ h with h1 | ⟨h1, h2⟩
    · rcases mem_mapSet acc _ _ e h1 with h3 | h3
      · subst h3
        exact Or.inr ⟨by simp [keys], rfl⟩
      · exact Or.inl h3
    · exact Or.inr ⟨by simp only [keys, List.map_cons, List.mem_cons]; exact Or.inr h1, h2⟩

theorem lcFold_mem_keys {α : Type} (lower : String → String) (conf : GoMap α)
    (acc : GoMap String) (l : String) :
    l ∈ keys (conf.foldl (fun fromLC kv => mapSet fromLC (lower kv.1) kv.1) acc)
      ↔ l ∈ keys acc ∨ ∃ k ∈ keys conf, lower k = l := by
  induction conf generalizing acc with
  | nil => simp [keys]
  | cons kv rest ih =>
    simp only [List.foldl_cons]
    rw [ih, mem_keys_mapSet]
    simp only [keys, List.map_cons, List.mem_cons, exists_eq_or_imp]
    constructor
    · rintro ((h | h) | h)
      · exact Or.inr (Or.inl h.symm)
      · exact Or.inl h
      · exact Or.inr (Or.inr h)
    · rintro (h | h | h)
      · exact Or.inl (Or.inr h)
      · exact Or.inl (Or.inl h.symm)
      · exact Or.inr h

theorem nodup_keys_mapSet {α : Type} (m : GoMap α) (a : String) (b : α)
    (h : (keys m).Nodup) : (keys (mapSet m a b)).Nodup := by
  induction m with
  | nil => simp [mapSet, keys]
  | cons kv rest ih =>
    obtain ⟨y, z⟩ := kv
    simp only [keys, List.map_cons, List.nodup_cons] at h
    by_cases hy : y = a
    · subst hy
      simpa [mapSet, keys] using h
    · simp only [mapSet, hy, if_false, keys, List.map_cons, List.nodup_cons]
      refine ⟨?_, ih h.2⟩
      intro hmem
      rcases (mem_keys_mapSet rest a b y).mp hmem with h1 | h1
      · exact hy h1
      · exact h.1 h1

theorem lcFold_nodup {α : Type} (lower : String → String) (conf : GoMap α)
    (acc : GoMap String) (h : (keys acc).Nodup) :
    (keys (conf.foldl (fun fromLC kv => mapSet fromLC (lower kv.1) kv.1) acc)).Nodup := by
  induction conf generalizing acc with
  | nil => exact h
  | cons kv rest ih => exact ih _ (nodup_keys_mapSet acc _ _ h)

/-- A key that is the only one with its lowercase form is what that form resolves to. -/
theorem indexStr_lcMap_of_unique {α : Type} (lower : String → String) (conf : GoMap α)
    (k : String) (hk : k ∈ keys conf)
    (huniq : ∀ k' ∈ keys conf, lower k' = lower k → k' = k) :
    mapGet? (lcMap lower conf) (lower k) = some k ∧ indexStr (lcMap lower conf) (lower k) = k := by
  have hne := lcFold_get_ne_none lower conf [] (lower k) (Or.inr ⟨k, hk, rfl⟩)
  cases hg : mapGet? (lcMap lower conf) (lower k) with
  | none => exact absurd hg hne
  | some k' =>
    rcases lcFold_get_some lower conf [] (lower k) k' hg with ⟨h1, h2⟩ | h1
    · have := huniq k' h1 h2
      subst this
      exact ⟨rfl, by simp [indexStr, hg]⟩
    · cases h1

/-! ## The forward transform, by the way it ends -/

/-- The three ways `ver5to6` ends, with the state each leaves. -/
theorem ver5to6_cases (lower : String → String) (ds : Obj) :
    (∃ v, ver5to6 lower ds = (ds, some (ConvError.unsupportedNoSync v)) ∧
      v = index ds (indexStr (lcMap lower ds) "nosync") ∧ v.isNullOrBool = false) ∨
    (∃ t, ver5to6 lower ds
        = (mapDelete ds (indexStr (lcMap lower ds) "nosync"),
            some (ConvError.unsupportedType t)) ∧
      (index ds (indexStr (lcMap lower ds) "nosync")).isNullOrBool = true ∧
      (index (mapDelete ds (indexStr (lcMap lower ds) "nosync"))
        (indexStr (lcMap lower ds) "type")).isNullOrKnownType = false) ∨
    (∃ b, ver5to6 lower ds
        = (mapSet (mapDelete (mapDelete (mapDelete
            (mapDelete ds (indexStr (lcMap lower ds) "nosync"))
            (indexStr (lcMap lower ds) "type"))
            (indexStr (lcMap lower ds) "path"))
            (indexStr (lcMap lower ds) "params")) "Spec" (JVal.obj (DatastoreSpec (!b))),
            none) ∧
      (index ds (indexStr (lcMap lower ds) "nosync") = JVal.bool b ∨
        (index ds (indexStr (lcMap lower ds) "nosync") = JVal.null ∧ b = false)) ∧
      (index (mapDelete ds (indexStr (lcMap lower ds) "nosync"))
        (indexStr (lcMap lower ds) "type")).isNullOrKnownType = true) := by
  unfold ver5to6
  cases hv : index ds (indexStr (lcMap lower ds) "nosync") with
  | null =>
    right
    cases ht : index (mapDelete ds (indexStr (lcMap lower ds) "nosync"))
        (indexStr (lcMap lower ds) "type") with
    | null => right; exact ⟨false, by simp [hv, ht], by simp, rfl⟩
    | str t =>
      by_cases hbad : t ≠ "default" ∧ t ≠ "leveldb" ∧ t ≠ ""
      · left; exact ⟨t, by simp [hv, ht, hbad], rfl, by simp [JVal.isNullOrKnownType, hbad]⟩
      · right
        refine ⟨false, by simp [hv, ht, hbad], by simp, ?_⟩
        simp only [JVal.isNullOrKnownType, decide_eq_true_eq]
        by_contra hc
        exact hbad ⟨fun e => hc (Or.inl e), fun e => hc (Or.inr (Or.inl e)),
          fun e => hc (Or.inr (Or.inr e))⟩
    | bool _ => left; exact ⟨"", by simp [hv, ht], rfl, rfl⟩
    | num _ => left; exact ⟨"", by simp [hv, ht], rfl, rfl⟩
    | arr _ => left; exact ⟨"", by simp [hv, ht], rfl, rfl⟩
    | obj _ => left; exact ⟨"", by simp [hv, ht], rfl, rfl⟩
  | bool b =>
    right
    cases ht : index (mapDelete ds (indexStr (lcMap lower ds) "nosync"))
        (indexStr (lcMap lower ds) "type") with
    | null => right; exact ⟨b, by simp [hv, ht], by simp, rfl⟩
    | str t =>
      by_cases hbad : t ≠ "default" ∧ t ≠ "leveldb" ∧ t ≠ ""
      · left; exact ⟨t, by simp [hv, ht, hbad], rfl, by simp [JVal.isNullOrKnownType, hbad]⟩
      · right
        refine ⟨b, by simp [hv, ht, hbad], by simp, ?_⟩
        simp only [JVal.isNullOrKnownType, decide_eq_true_eq]
        by_contra hc
        exact hbad ⟨fun e => hc (Or.inl e), fun e => hc (Or.inr (Or.inl e)),
          fun e => hc (Or.inr (Or.inr e))⟩
    | bool _ => left; exact ⟨"", by simp [hv, ht], rfl, rfl⟩
    | num _ => left; exact ⟨"", by simp [hv, ht], rfl, rfl⟩
    | arr _ => left; exact ⟨"", by simp [hv, ht], rfl, rfl⟩
    | obj _ => left; exact ⟨"", by simp [hv, ht], rfl, rfl⟩
  | num x => left; exact ⟨JVal.num x, by simp [hv], rfl, rfl⟩
  | str x => left; exact ⟨JVal.str x, by simp [hv], rfl, rfl⟩
  | arr x => left; exact ⟨JVal.arr x, by simp [hv], rfl, rfl⟩
  | obj x => left; exact ⟨JVal.obj x, by simp [hv], rfl, rfl⟩

/-- A resolved key has the lowercase form asked for, or is the empty string. -/
theorem resolved_ne_of_lower_ne {α : Type} (lower : String → String) (conf : GoMap α)
    (l x : String) (hl : lower x ≠ l) (hx : x ≠ "") :
    indexStr (lcMap lower conf) l ≠ x := by
  rcases indexStr_lcMap_cases lower conf l with ⟨_, h⟩ | ⟨_, h⟩
  · intro e
    rw [e] at h
    exact hl h
  · rw [h]
    exact fun e => hx e.symm

/-- A key other than "", "Spec" and the casings of the four old fields keeps
its value through a successful forward transform. -/
theorem ver5to6_passthrough (lower : String → String) (ds : Obj)
    (hok : (ver5to6 lower ds).2 = none) (k : String)
    (hk : lower k ∉ ["nosync", "type", "path", "params"]) (hk0 : k ≠ "") (hkS : k ≠ "Spec") :
    mapGet? (ver5to6 lower ds).1 k = mapGet? ds k := by
  simp only [List.mem_cons, List.mem_singleton, List.not_mem_nil, or_false, not_or] at hk
  have h1 := resolved_ne_of_lower_ne lower ds "nosync" k hk.1 hk0
  have h2 := resolved_ne_of_lower_ne lower ds "type" k hk.2.1 hk0
  have h3 := resolved_ne_of_lower_ne lower ds "path" k hk.2.2.1 hk0
  have h4 := resolved_ne_of_lower_ne lower ds "params" k hk.2.2.2 hk0
  have h5 : ¬ "Spec" = k := fun e => hkS e.symm
  rcases ver5to6_cases lower ds with ⟨v, h, _⟩ | ⟨t, h, _⟩ | ⟨b, h, _⟩
  · rw [h] at hok; cases hok
  · rw [h] at hok; cases hok
  · rw [h]
    simp only [mapGet?_mapSet, mapGet?_mapDelete, h1, h2, h3, h4, h5, if_false]

/-! ## What the traversal leaves in `blocks` and `root` -/

theorem scanMounts_done_last (ms : List JVal) (st st' : Scan)
    (h : scanMounts ms st = ScanResult.done st') :
    st'.blocks
      = ((ms.filter (fun e => decide (mountpointOf e = some "/blocks"))).getLast?).getD st.blocks ∧
    st'.root
      = ((ms.filter (fun e => decide (mountpointOf e = some "/"))).getLast?).getD st.root := by
  induction ms generalizing st with
  | nil =>
    simp only [scanMounts, ScanResult.done.injEq] at h
    subst h
    simp
  | cons e ms ih =>
    cases hok : entryOk e with
    | false =>
      obtain ⟨r, hr⟩ := scanMounts_cons_fault e hok
      rw [hr] at h
      cases h
    | true =>
      cases hu : hasUnknownMountpoint e with
      | true =>
        rw [scanMounts_cons_unknown e _ st hu] at h
        cases h
      | false =>
        rcases entryOk_cases e hok hu with hr | ⟨b, hb⟩
        · rw [scanMounts_cons_root e _ st hr] at h
          have := ih _ h
          have hr' : mountpointOf e = some "/" := hr
          simp only [List.filter, hr', decide_True, List.getLast?_cons, Option.getD_some]
          have hne : decide (some "/" = some "/blocks") = false := by decide
          simp only [hne]
          exact this
        · rw [scanMounts_cons_blocks e _ st b hb] at h
          have := ih _ h
          have hb' : mountpointOf e = some "/blocks" := hb.1
          simp only [List.filter, hb', decide_True, List.getLast?_cons, Option.getD_some]
          have hne : decide (some "/blocks" = some "/") = false := by decide
          simp only [hne]
          exact this

/-- The ways `ver6to5` ends, with the state each leaves. -/
theorem ver6to5_cases (lower : String → String) (ds : Obj) :
    (∃ r, ver6to5 lower ds = (ds, some (ConvError.incompatible r))) ∨
    ver6to5 lower ds = (ds, some ConvError.unknownMountpoint) ∨
    (∃ (spec : Obj) (ms : List JVal) (st : Scan), index ds (specKey lower ds) = JVal.obj spec ∧
      index spec "mounts" = JVal.arr ms ∧
      st.blocks = lastMount "/blocks" ms ∧ st.root = lastMount "/" ms ∧
      ((deepEqual (JVal.obj (mapSet spec "mounts" (JVal.arr [st.blocks, st.root])))
          (JVal.obj (DatastoreSpec st.sync)) = true ∧
        ver6to5 lower ds =
          (mapSet (mapSet (mapSet (mapDelete
            (mapSet ds (specKey lower ds)
              (JVal.obj (mapSet spec "mounts" (JVal.arr [st.blocks, st.root]))))
            (specKey lower ds)) "Type" (JVal.str "leveldb")) "Params" JVal.null)
            "NoSync" (JVal.bool (!st.sync)), none)) ∨
       (deepEqual (JVal.obj (mapSet spec "mounts" (JVal.arr [st.blocks, st.root])))
          (JVal.obj (DatastoreSpec st.sync)) = false ∧
        ver6to5 lower ds =
          (mapSet ds (specKey lower ds)
            (JVal.obj (mapSet spec "mounts" (JVal.arr [st.blocks, st.root]))),
            some ConvError.specNotSupported)))) := by
  by_cases hm : ∃ spec, index ds (specKey lower ds) = JVal.obj spec
  · obtain ⟨spec, hspec⟩ := hm
    by_cases hs : ∃ ms, index spec "mounts" = JVal.arr ms
    · obtain ⟨ms, hms⟩ := hs
      cases hscan : scanMounts ms ⟨JVal.null, JVal.null, true⟩ with
      | fault r => exact Or.inl ⟨r, ver6to5_of_fault lower ds spec ms r hspec hms hscan⟩
      | unknownMountpoint => exact Or.inr (Or.inl (ver6to5_of_unknown lower ds spec ms hspec hms hscan))
      | done st =>
        right; right
        have hl := scanMounts_done_last ms _ st hscan
        refine ⟨spec, ms, st, hspec, hms, hl.1, hl.2, ?_⟩
        rw [ver6to5_of_done lower ds spec ms st hspec hms hscan]
        cases hde : deepEqual (JVal.obj (mapSet spec "mounts" (JVal.arr [st.blocks, st.root])))
            (JVal.obj (DatastoreSpec st.sync)) with
        | true => left; simp
        | false => right; simp
    · exact Or.inl (ver6to5_of_not_slice lower ds spec hspec (fun ms e => hs ⟨ms, e⟩))
  · exact Or.inl (ver6to5_of_not_map lower ds (fun spec e => hm ⟨spec, e⟩))

/-! ## Round trip new -> old -> new -/

/-- The forward transform on the subtree the backward transform writes. -/
theorem ver5to6_of_downgraded (lower : String → String)
    (hlT : lower "Type" = "type") (hlP : lower "Params" = "params")
    (hlN : lower "NoSync" = "nosync") (noSync : Bool) :
    ver5to6 lower
        [("Type", JVal.str "leveldb"), ("Params", JVal.null), ("NoSync", JVal.bool noSync)]
      = ([("Spec", JVal.obj (DatastoreSpec (!noSync)))], none) := by
  simp [ver5to6, lcMap, mapSet, indexStr, mapGet?, index, mapDelete, hlT, hlP, hlN]

/-- On the builder's output the backward and then the forward transform give the input back. -/
theorem roundtrip_canonical (lower : String → String)
    (hlS : lower "Spec" = "spec") (hlT : lower "Type" = "type")
    (hlP : lower "Params" = "params") (hlN : lower "NoSync" = "nosync") (sync : Bool) :
    ver6to5 lower [("Spec", JVal.obj (DatastoreSpec sync))]
      = ([("Type", JVal.str "leveldb"), ("Params", JVal.null), ("NoSync", JVal.bool (!sync))],
          none) ∧
    ver5to6 lower (ver6to5 lower [("Spec", JVal.obj (DatastoreSpec sync))]).1
      = ([("Spec", JVal.obj (DatastoreSpec sync))], none) := by
  rw [ver6to5_canonical_eq lower "Spec" hlS sync]
  refine ⟨rfl, ?_⟩
  simp only []
  rw [ver5to6_of_downgraded lower hlT hlP hlN]
  simp

/-- After a successful backward transform of a subtree with the single key
"Spec", the forward transform installs the builder's output for the sync
found, and the input spec with its mounts set to [last "/blocks" entry,
last "/" entry] is deep-equal to it. -/
theorem roundtrip_spec_only (lower : String → String)
    (hlS : lower "Spec" = "spec") (hlT : lower "Type" = "type")
    (hlP : lower "Params" = "params") (hlN : lower "NoSync" = "nosync") (S : Obj)
    (hok : (ver6to5 lower [("Spec", JVal.obj S)]).2 = none) :
    ∃ ms sync, index S "mounts" = JVal.arr ms ∧
      ver5to6 lower (ver6to5 lower [("Spec", JVal.obj S)]).1
        = ([("Spec", JVal.obj (DatastoreSpec sync))], none) ∧
      deepEqual (JVal.obj (mapSet S "mounts"
          (JVal.arr [lastMount "/blocks" ms, lastMount "/" ms])))
        (JVal.obj (DatastoreSpec sync)) = true := by
  have hkey : specKey lower [("Spec", JVal.obj S)] = "Spec" :=
    specKey_singleton lower "Spec" _ hlS
  rcases ver6to5_cases lower [("Spec", JVal.obj S)] with
    ⟨r, h⟩ | h | ⟨spec, ms, st, hspec, hms, hb, hr, h⟩
  · rw [h] at hok; cases hok
  · rw [h] at hok; cases hok
  · rw [hkey] at hspec
    have hS : spec = S := by
      simp [index, mapGet?] at hspec
      exact hspec.symm
    subst hS
    rcases h with ⟨hde, h⟩ | ⟨_, h⟩
    · refine ⟨ms, st.sync, hms, ?_, ?_⟩
      · rw [h, hkey]
        simp only [mapSet, mapDelete, if_true]
        have := ver5to6_of_downgraded lower hlT hlP hlN (!st.sync)
        simpa [mapSet] using this
      · rw [← hb, ← hr]
        exact hde
    · rw [h] at hok; cases hok

/-! ## Respelling a key -/

theorem respell_eq_iff (k1 k2 a x : String) (ha : a ≠ k2) (hx : x ≠ k2) :
    ((if a = k1 then k2 else a) = (if x = k1 then k2 else x)) ↔ a = x := by
  by_cases h1 : a = k1
  · by_cases h2 : x = k1
    · rw [if_pos h1, if_pos h2, h1, h2]
      exact ⟨fun _ => rfl, fun _ => rfl⟩
    · rw [if_pos h1, if_neg h2]
      constructor
      · intro e; exact absurd e.symm hx
      · intro e; exact absurd (e.symm.trans h1) h2
  · by_cases h2 : x = k1
    · rw [if_neg h1, if_pos h2]
      constructor
      · intro e; exact absurd e ha
      · intro e; exact absurd (e.trans h2) h1
    · rw [if_neg h1, if_neg h2]

theorem not_mem_keys_of_cons {α : Type} (a : String) (b : α) (rest : GoMap α) (k : String)
    (h : k ∉ keys ((a, b) :: rest)) : a ≠ k ∧ k ∉ keys rest := by
  simp only [keys, List.map_cons, List.mem_cons, not_or] at h
  exact ⟨fun e => h.1 e.symm, h.2⟩

theorem mapGet?_renameKey {α : Type} (m : GoMap α) (k1 k2 x : String)
    (hk2 : k2 ∉ keys m) (hx : x ≠ k2) :
    mapGet? (renameKey k1 k2 m) (if x = k1 then k2 else x) = mapGet? m x := by
  induction m with
  | nil => rfl
  | cons kv rest ih =>
    obtain ⟨a, b⟩ := kv
    obtain ⟨ha, hrest⟩ := not_mem_keys_of_cons a b rest k2 hk2
    have ih' := ih hrest
    simp only [renameKey, List.map_cons] at ih' ⊢
    simp only [mapGet?, respell_eq_iff k1 k2 a x ha hx]
    by_cases e : a = x
    · simp [e]
    · simp only [e, if_false]
      exact ih'

theorem mapDelete_renameKey {α : Type} (m : GoMap α) (k1 k2 x : String)
    (hk2 : k2 ∉ keys m) (hx : x ≠ k2) :
    mapDelete (renameKey k1 k2 m) (if x = k1 then k2 else x)
      = renameKey k1 k2 (mapDelete m x) := by
  induction m with
  | nil => rfl
  | cons kv rest ih =>
    obtain ⟨a, b⟩ := kv
    obtain ⟨ha, hrest⟩ := not_mem_keys_of_cons a b rest k2 hk2
    have ih' := ih hrest
    simp only [renameKey, List.map_cons] at ih' ⊢
    simp only [mapDelete, respell_eq_iff k1 k2 a x ha hx]
    by_cases e : a = x
    · simp only [e, if_true]
      exact ih'
    · simp only [e, if_false, List.map_cons, ih']

theorem renameKey_of_not_mem {α : Type} (m : GoMap α) (k1 k2 : String) (h : k1 ∉ keys m) :
    renameKey k1 k2 m = m := by
  induction m with
  | nil => rfl
  | cons kv rest ih =>
    obtain ⟨a, b⟩ := kv
    obtain ⟨ha, hrest⟩ := not_mem_keys_of_cons a b rest k1 h
    have ih' := ih hrest
    simp only [renameKey, List.map_cons, ha, if_false] at ih' ⊢
    rw [ih']

theorem mem_keys_mapDelete {α : Type} (m : GoMap α) (k x : String) :
    x ∈ keys (mapDelete m k) ↔ x ∈ keys m ∧ x ≠ k := by
  rw [mapDelete_eq_filter]
  simp only [keys, List.mem_map, List.mem_filter, ne_eq, decide_eq_true_eq, Prod.exists,
    exists_and_right, exists_eq_right]

theorem mapGet?_map_values (acc : GoMap String) (f : String → String) (l : String) :
    mapGet? (acc.map (fun e => (e.1, f e.2))) l = (mapGet? acc l).map f := by
  induction acc with
  | nil => rfl
  | cons e rest ih =>
    obtain ⟨a, b⟩ := e
    by_cases h : a = l <;> simp [mapGet?, h, ih]

theorem mapSet_map_values (acc : GoMap String) (f : String → String) (l k : String) :
    mapSet (acc.map (fun e => (e.1, f e.2))) l (f k)
      = (mapSet acc l k).map (fun e => (e.1, f e.2)) := by
  induction acc with
  | nil => rfl
  | cons e rest ih =>
    obtain ⟨a, b⟩ := e
    by_cases h : a = l <;> simp [mapSet, h, ih]

theorem lcFold_renameKey {α : Type} (lower : String → String) (m : GoMap α)
    (k1 k2 : String) (hl : lower k2 = lower k1) (acc : GoMap String) :
    (renameKey k1 k2 m).foldl (fun fromLC kv => mapSet fromLC (lower kv.1) kv.1)
        (acc.map (fun e => (e.1, if e.2 = k1 then k2 else e.2)))
      = (m.foldl (fun fromLC kv => mapSet fromLC (lower kv.1) kv.1) acc).map
          (fun e => (e.1, if e.2 = k1 then k2 else e.2)) := by
  induction m generalizing acc with
  | nil => rfl
  | cons kv rest ih =>
    obtain ⟨a, b⟩ := kv
    have ih' := ih (mapSet acc (lower a) a)
    simp only [renameKey, List.map_cons, List.foldl_cons] at ih' ⊢
    have hlow : lower (if a = k1 then k2 else a) = lower a := by
      by_cases e : a = k1
      · simp [e, hl]
      · simp [e]
    rw [hlow, mapSet_map_values acc (fun s => if s = k1 then k2 else s) (lower a) a]
    exact ih'

/-- Resolution commutes with respelling a key in the same lowercase class. -/
theorem indexStr_lcMap_renameKey {α : Type} (lower : String → String) (m : GoMap α)
    (k1 k2 : String) (hl : lower k2 = lower k1) (hk1 : k1 ≠ "") (l : String) :
    indexStr (lcMap lower (renameKey k1 k2 m)) l
      = if indexStr (lcMap lower m) l = k1 then k2 else indexStr (lcMap lower m) l := by
  have h := lcFold_renameKey lower m k1 k2 hl []
  simp only [List.map_nil] at h
  unfold indexStr lcMap
  rw [h, mapGet?_map_values _ (fun s => if s = k1 then k2 else s)]
  cases hg : mapGet? (List.foldl (fun fromLC kv => mapSet fromLC (lower kv.1) kv.1) [] m) l with
  | none =>
    have : ¬ "" = k1 := fun e => hk1 e.symm
    simp [this]
  | some k => simp

/-- Two subtrees on which the forward transform reads the same NoSync and
Type values and is left with the same entries after its four deletions end
with the same error and, on success, in the same state. -/
theorem ver5to6_congr (lower : String → String) (ds ds' : Obj)
    (hN : index ds' (indexStr (lcMap lower ds') "nosync")
      = index ds (indexStr (lcMap lower ds) "nosync"))
    (hT : index (mapDelete ds' (indexStr (lcMap lower ds') "nosync"))
        (indexStr (lcMap lower ds') "type")
      = index (mapDelete ds (indexStr (lcMap lower ds) "nosync"))
        (indexStr (lcMap lower ds) "type"))
    (hF : mapDelete (mapDelete (mapDelete (mapDelete ds' (indexStr (lcMap lower ds') "nosync"))
        (indexStr (lcMap lower ds') "type")) (indexStr (lcMap lower ds') "path"))
        (indexStr (lcMap lower ds') "params")
      = mapDelete (mapDelete (mapDelete (mapDelete ds (indexStr (lcMap lower ds) "nosync"))
        (indexStr (lcMap lower ds) "type")) (indexStr (lcMap lower ds) "path"))
        (indexStr (lcMap lower ds) "params")) :
    (ver5to6 lower ds').2 = (ver5to6 lower ds).2 ∧
    ((ver5to6 lower ds).2 = none → (ver5to6 lower ds').1 = (ver5to6 lower ds).1) := by
  simp only [ver5to6, hN, hT, hF]
  cases index ds (indexStr (lcMap lower ds) "nosync") <;>
    cases index (mapDelete ds (indexStr (lcMap lower ds) "nosync"))
      (indexStr (lcMap lower ds) "type") <;>
    simp <;> split <;> simp

theorem index_renameKey (m : Obj) (k1 k2 x : String) (hk2 : k2 ∉ keys m) (hx : x ≠ k2) :
    index (renameKey k1 k2 m) (if x = k1 then k2 else x) = index m x := by
  unfold index
  rw [mapGet?_renameKey m k1 k2 x hk2 hx]

theorem resolved_ne_of_not_mem {α : Type} (lower : String → String) (conf : GoMap α)
    (l x : String) (hx : x ∉ keys conf) (hx0 : x ≠ "") :
    indexStr (lcMap lower conf) l ≠ x := by
  rcases indexStr_lcMap_cases lower conf l with ⟨h, _⟩ | ⟨_, h⟩
  · intro e
    rw [e] at h
    exact hx h
  · rw [h]
    exact fun e => hx0 e.symm

theorem not_mem_keys_mapDelete {α : Type} (m : GoMap α) (k x : String) (h : x ∉ keys m) :
    x ∉ keys (mapDelete m k) :=
  fun hm => h ((mem_keys_mapDelete m k x).mp hm).1

/-- Respelling the one key of a lowercase class that the forward transform
resolves, into a spelling not yet in the subtree, changes neither the error
nor the state reached on success. -/
theorem ver5to6_renameKey (lower : String → String) (ds : Obj) (k1 k2 name : String)
    (hname : name ∈ ["nosync", "type", "path", "params"])
    (h1 : lower k1 = name) (h2 : lower k2 = name) (hk1 : k1 ≠ "") (hk2 : k2 ≠ "")
    (hmem : k1 ∈ keys ds) (huniq : ∀ k ∈ keys ds, lower k = name → k = k1)
    (hk2m : k2 ∉ keys ds) :
    (ver5to6 lower (renameKey k1 k2 ds)).2 = (ver5to6 lower ds).2 ∧
    ((ver5to6 lower ds).2 = none →
      (ver5to6 lower (renameKey k1 k2 ds)).1 = (ver5to6 lower ds).1) := by
  have hl : lower k2 = lower k1 := by rw [h1, h2]
  have hK := indexStr_lcMap_renameKey lower ds k1 k2 hl hk1
  have hne : ∀ l, indexStr (lcMap lower ds) l ≠ k2 :=
    fun l => resolved_ne_of_not_mem lower ds l k2 hk2m hk2
  have hres : indexStr (lcMap lower ds) name = k1 := by
    have := (indexStr_lcMap_of_unique lower ds k1 hmem (by rw [h1]; exact huniq)).2
    rw [h1] at this
    exact this
  have hm1 := not_mem_keys_mapDelete ds (indexStr (lcMap lower ds) "nosync") k2 hk2m
  have hm2 := not_mem_keys_mapDelete _ (indexStr (lcMap lower ds) "type") k2 hm1
  have hm3 := not_mem_keys_mapDelete _ (indexStr (lcMap lower ds) "path") k2 hm2
  apply ver5to6_congr
  · rw [hK, index_renameKey ds k1 k2 _ hk2m (hne _)]
  · rw [hK, hK, mapDelete_renameKey ds k1 k2 _ hk2m (hne _),
      index_renameKey _ k1 k2 _ hm1 (hne _)]
  · rw [hK, hK, hK, hK, mapDelete_renameKey ds k1 k2 _ hk2m (hne _),
      mapDelete_renameKey _ k1 k2 _ hm1 (hne _), mapDelete_renameKey _ k1 k2 _ hm2 (hne _),
      mapDelete_renameKey _ k1 k2 _ hm3 (hne _)]
    apply renameKey_of_not_mem
    intro hin
    simp only [mem_keys_mapDelete] at hin
    obtain ⟨⟨⟨⟨_, n1⟩, n2⟩, n3⟩, n4⟩ := hin
    simp only [List.mem_cons, List.mem_singleton, List.not_mem_nil, or_false] at hname
    rcases hname with e | e | e | e <;> subst e
    · exact n1 hres.symm
    · exact n2 hres.symm
    · exact n3 hres.symm
    · exact n4 hres.symm

/-- After a successful forward transform no key of a resolved lowercase class
with a single member remains. -/
theorem ver5to6_class_removed (lower : String → String) (hlS : lower "Spec" = "spec")
    (ds : Obj) (k1 name : String)
    (hname : name ∈ ["nosync", "type", "path", "params"])
    (h1 : lower k1 = name) (hmem : k1 ∈ keys ds)
    (huniq : ∀ k ∈ keys ds, lower k = name → k = k1)
    (hok : (ver5to6 lower ds).2 = none) (k : String) (hk : lower k = name) :
    k ∉ keys (ver5to6 lower ds).1 := by
  have hres : indexStr (lcMap lower ds) name = k1 := by
    have := (indexStr_lcMap_of_unique lower ds k1 hmem (by rw [h1]; exact huniq)).2
    rw [h1] at this
    exact this
  rcases ver5to6_cases lower ds with ⟨v, h, _⟩ | ⟨t, h, _⟩ | ⟨b, h, _⟩
  · rw [h] at hok; cases hok
  · rw [h] at hok; cases hok
  · rw [h]
    intro hin
    simp only [mem_keys_mapSet, mem_keys_mapDelete] at hin
    rcases hin with e | ⟨⟨⟨⟨hin, n1⟩, n2⟩, n3⟩, n4⟩
    · rw [e, hlS] at hk
      rw [← hk] at hname
      revert hname
      decide
    · have hkk : k = k1 := huniq k hin hk
      subst hkk
      simp only [List.mem_cons, List.mem_singleton, List.not_mem_nil, or_false] at hname
      rcases hname with e | e | e | e <;> subst e
      · exact n1 hres.symm
      · exact n2 hres.symm
      · exact n3 hres.symm
      · exact n4 hres.symm

/-- With no case clash, a successful forward transform leaves "Spec" and
keys of the input whose lowercase form is none of the four old field names. -/
theorem ver5to6_result_keys (lower : String → String) (ds : Obj)
    (hnd : NoCaseClash lower ds) (hok : (ver5to6 lower ds).2 = none) (k : String)
    (hk : k ∈ keys (ver5to6 lower ds).1) :
    k = "Spec" ∨ (k ∈ keys ds ∧ lower k ∉ ["nosync", "type", "path", "params"]) := by
  rcases ver5to6_cases lower ds with ⟨v, h, _⟩ | ⟨t, h, _⟩ | ⟨b, h, _⟩
  · rw [h] at hok; cases hok
  · rw [h] at hok; cases hok
  · rw [h] at hk
    simp only [mem_keys_mapSet, mem_keys_mapDelete] at hk
    rcases hk with e | ⟨⟨⟨⟨hin, n1⟩, n2⟩, n3⟩, n4⟩
    · exact Or.inl e
    · right
      refine ⟨hin, ?_⟩
      have hr := indexStr_lcMap_of_mem lower ds k hnd hin
      intro hl
      simp only [List.mem_cons, List.mem_singleton, List.not_mem_nil, or_false] at hl
      rcases hl with e | e | e | e <;> rw [e] at hr
      · exact n1 hr.symm
      · exact n2 hr.symm
      · exact n3 hr.symm
      · exact n4 hr.symm

/-! ## The transforms in terms of the keys their lookups return -/

/-- Shape faults of the value the lookup `ds[fromLC["spec"]]` returns: when
that value is not a mapping, or its mounts field is not a sequence, or a
mounts entry with no unknown mountpoint before it does not have the shape the
traversal asserts, `ver6to5` returns the "incompatible config detected,
downgrade not possible" error with the recovered cause and leaves the subtree
unchanged.  The value read is the one under the key "" when no key has the
lowercase form "spec". -/
theorem ver6to5_resolved_shape_fault (lower : String → String) (ds : Obj) :
    (((∀ spec, index ds (specKey lower ds) ≠ JVal.obj spec) ∨
      (∃ spec, index ds (specKey lower ds) = JVal.obj spec ∧
        ∀ ms, index spec "mounts" ≠ JVal.arr ms) ∨
      (∃ spec pre e post, index ds (specKey lower ds) = JVal.obj spec ∧
        index spec "mounts" = JVal.arr (pre ++ e :: post) ∧
        (∀ p ∈ pre, hasUnknownMountpoint p = false) ∧ entryOk e = false)) →
      ∃ r, ver6to5 lower ds = (ds, some (ConvError.incompatible r)) ∧
        (ConvError.incompatible r).phrase
          = "incompatible config detected, downgrade not possible: ") := by
  rintro (h | ⟨spec, hspec, h⟩ | ⟨spec, pre, e, post, hspec, hms, hpre, hbad⟩)
  · obtain ⟨r, hr⟩ := ver6to5_of_not_map lower ds h
    exact ⟨r, hr, rfl⟩
  · obtain ⟨r, hr⟩ := ver6to5_of_not_slice lower ds spec hspec h
    exact ⟨r, hr, rfl⟩
  · obtain ⟨r, hr⟩ := scanMounts_fault_of_bad pre e post ⟨JVal.null, JVal.null, true⟩ hpre hbad
    exact ⟨r, ver6to5_of_fault lower ds spec _ r hspec hms hr, rfl⟩

/-- Example of a shape fault: the "/" entry followed by a "/blocks" entry whose child has a string sync. -/
theorem ver6to5_resolved_shape_fault_example :
    ∃ r, ver6to5 asciiLower
        [("Spec", JVal.obj [("mounts", JVal.arr [rootMount,
          JVal.obj [("mountpoint", JVal.str "/blocks"),
            ("child", JVal.obj [("sync", JVal.str "true")])]])])]
      = ([("Spec", JVal.obj [("mounts", JVal.arr [rootMount,
            JVal.obj [("mountpoint", JVal.str "/blocks"),
              ("child", JVal.obj [("sync", JVal.str "true")])]])])],
          some (ConvError.incompatible r)) ∧
      (ConvError.incompatible r).phrase
        = "incompatible config detected, downgrade not possible: " :=
  ver6to5_resolved_shape_fault asciiLower
    [("Spec", JVal.obj [("mounts", JVal.arr [rootMount,
      JVal.obj [("mountpoint", JVal.str "/blocks"),
        ("child", JVal.obj [("sync", JVal.str "true")])]])])]
    (Or.inr (Or.inr ⟨[("mounts", JVal.arr [rootMount,
        JVal.obj [("mountpoint", JVal.str "/blocks"),
          ("child", JVal.obj [("sync", JVal.str "true")])]])],
      [rootMount],
      JVal.obj [("mountpoint", JVal.str "/blocks"),
        ("child", JVal.obj [("sync", JVal.str "true")])],
      [], rfl, rfl, by decide, rfl⟩))

/-- State left by a failed forward transform, in terms of the key the lookup
`fromLC["nosync"]` returns: the error is the NoSync or the Type validation
error and the binding of "Spec" is as before; after the NoSync error the
subtree is unchanged; after the Type error the subtree is the input with that
key deleted, and every key whose lowercase form is "type", "path" or "params"
still has its value.  The key deleted is "" when no key has the lowercase
form "nosync". -/
theorem ver5to6_failed_state_resolved (lower : String → String)
    (hl0 : lower "" = "") (hlS : lower "Spec" = "spec") (ds : Obj) (err : ConvError)
    (herr : (ver5to6 lower ds).2 = some err) :
    mapGet? (ver5to6 lower ds).1 "Spec" = mapGet? ds "Spec" ∧
    ((∃ v, err = ConvError.unsupportedNoSync v) ∨ (∃ t, err = ConvError.unsupportedType t)) ∧
    (∀ v, err = ConvError.unsupportedNoSync v → (ver5to6 lower ds).1 = ds) ∧
    (∀ t, err = ConvError.unsupportedType t →
      (ver5to6 lower ds).1 = mapDelete ds (indexStr (lcMap lower ds) "nosync") ∧
      ∀ k ∈ keys ds, lower k ∈ ["type", "path", "params"] →
        mapGet? (ver5to6 lower ds).1 k = mapGet? ds k) := by
  have hS : indexStr (lcMap lower ds) "nosync" ≠ "Spec" :=
    resolved_ne_of_lower_ne lower ds "nosync" "Spec" (by rw [hlS]; decide) (by decide)
  rcases ver5to6_cases lower ds with ⟨v, h, _⟩ | ⟨t, h, _⟩ | ⟨b, h, _⟩
  · rw [h] at herr ⊢
    simp only [Option.some.injEq] at herr
    subst herr
    exact ⟨rfl, Or.inl ⟨v, rfl⟩, fun _ _ => rfl, fun t e => (by cases e)⟩
  · rw [h] at herr ⊢
    simp only [Option.some.injEq] at herr
    subst herr
    refine ⟨?_, Or.inr ⟨t, rfl⟩, fun v e => (by cases e), fun _ _ => ⟨rfl, ?_⟩⟩
    · simp only [mapGet?_mapDelete, hS, if_false]
    · intro k _ hk
      have hne : indexStr (lcMap lower ds) "nosync" ≠ k := by
        apply resolved_ne_of_lower_ne
        · intro e
          rw [e] at hk
          revert hk
          decide
        · intro e
          rw [e, hl0] at hk
          revert hk
          decide
      simp only [mapGet?_mapDelete, hne, if_false]
  · rw [h] at herr
    cases herr

/-- Example of the state after the Type error: NoSync = true with Type =
"flatfs" leaves the subtree without its NoSync key. -/
theorem ver5to6_failed_state_resolved_example :
    (ver5to6 asciiLower [("NoSync", JVal.bool true), ("Type", JVal.str "flatfs"),
        ("Path", JVal.str "p")]).1
      = mapDelete [("NoSync", JVal.bool true), ("Type", JVal.str "flatfs"),
          ("Path", JVal.str "p")]
          (indexStr (lcMap asciiLower [("NoSync", JVal.bool true), ("Type", JVal.str "flatfs"),
            ("Path", JVal.str "p")]) "nosync") ∧
    ∀ k ∈ keys [("NoSync", JVal.bool true), ("Type", JVal.str "flatfs"), ("Path", JVal.str "p")],
      asciiLower k ∈ ["type", "path", "params"] →
      mapGet? (ver5to6 asciiLower [("NoSync", JVal.bool true), ("Type", JVal.str "flatfs"),
          ("Path", JVal.str "p")]).1 k
        = mapGet? [("NoSync", JVal.bool true), ("Type", JVal.str "flatfs"),
            ("Path", JVal.str "p")] k :=
  (ver5to6_failed_state_resolved asciiLower (by decide) (by decide)
    [("NoSync", JVal.bool true), ("Type", JVal.str "flatfs"), ("Path", JVal.str "p")]
    (ConvError.unsupportedType "flatfs") rfl).2.2.2 "flatfs" rfl

/-- State left by a failed backward transform, in terms of the value the
lookup `ds[fromLC["spec"]]` returns: the subtree has the same top-level keys
as the input; unless the error is the "not of a supported value" error the
subtree is unchanged; with that error the only change is the assignment to
that value's mounts field of the two-element sequence [last "/blocks" entry
or null, last "/" entry or null], the value keeping its keys.  The value
rewritten is the one under the key "" when no key has the lowercase form
"spec". -/
theorem ver6to5_failed_state_resolved (lower : String → String) (ds : Obj) (err : ConvError)
    (herr : (ver6to5 lower ds).2 = some err) :
    keys (ver6to5 lower ds).1 = keys ds ∧
    (err ≠ ConvError.specNotSupported → (ver6to5 lower ds).1 = ds) ∧
    (err = ConvError.specNotSupported →
      ∃ spec ms, index ds (specKey lower ds) = JVal.obj spec ∧
        index spec "mounts" = JVal.arr ms ∧
        (ver6to5 lower ds).1
          = mapSet ds (specKey lower ds) (JVal.obj (mapSet spec "mounts"
              (JVal.arr [lastMount "/blocks" ms, lastMount "/" ms]))) ∧
        keys (mapSet spec "mounts" (JVal.arr [lastMount "/blocks" ms, lastMount "/" ms]))
          = keys spec) := by
  rcases ver6to5_cases lower ds with ⟨r, h⟩ | h | ⟨spec, ms, st, hspec, hms, hb, hr, h⟩
  · rw [h] at herr ⊢
    simp only [Option.some.injEq] at herr
    subst herr
    exact ⟨rfl, fun _ => rfl, fun e => by cases e⟩
  · rw [h] at herr ⊢
    simp only [Option.some.injEq] at herr
    subst herr
    exact ⟨rfl, fun _ => rfl, fun e => by cases e⟩
  · rcases h with ⟨_, h⟩ | ⟨_, h⟩
    · rw [h] at herr
      cases herr
    · rw [h] at herr ⊢
      simp only [Option.some.injEq] at herr
      subst herr
      have hkey : specKey lower ds ∈ keys ds := mem_keys_of_index_obj ds _ spec hspec
      have hmk : "mounts" ∈ keys spec := by
        unfold index at hms
        cases hg : mapGet? spec "mounts" with
        | none => rw [hg] at hms; cases hms
        | some v => exact mem_keys_of_mapGet? spec _ v hg
      refine ⟨keys_mapSet_of_mem ds _ _ hkey, fun hne => absurd rfl hne, fun _ => ?_⟩
      refine ⟨spec, ms, hspec, hms, ?_, keys_mapSet_of_mem spec _ _ hmk⟩
      rw [hb, hr]

/-- Example of the state after the mismatch error: a spec with two "/blocks"
entries and no "/" entry is left with mounts = [second entry, null]. -/
theorem ver6to5_failed_state_resolved_example :
    ∃ spec ms,
      index [("Spec", JVal.obj [("mounts", JVal.arr [blocksMount true, blocksMount false])])]
        (specKey asciiLower
          [("Spec", JVal.obj [("mounts", JVal.arr [blocksMount true, blocksMount false])])])
        = JVal.obj spec ∧
      index spec "mounts" = JVal.arr ms ∧
      (ver6to5 asciiLower
        [("Spec", JVal.obj [("mounts", JVal.arr [blocksMount true, blocksMount false])])]).1
        = mapSet [("Spec", JVal.obj [("mounts", JVal.arr [blocksMount true, blocksMount false])])]
            (specKey asciiLower
              [("Spec", JVal.obj [("mounts", JVal.arr [blocksMount true, blocksMount false])])])
            (JVal.obj (mapSet spec "mounts"
              (JVal.arr [lastMount "/blocks" ms, lastMount "/" ms]))) ∧
      keys (mapSet spec "mounts" (JVal.arr [lastMount "/blocks" ms, lastMount "/" ms]))
        = keys spec :=
  (ver6to5_failed_state_resolved asciiLower
    [("Spec", JVal.obj [("mounts", JVal.arr [blocksMount true, blocksMount false])])]
    ConvError.specNotSupported rfl).2.2 rfl

/-! ## Claims -/

/-- C1. Round trip old -> new -> old: on every old-schema subtree (keys among
the casings of NoSync, Type, Path, Params, no two keys sharing a lowercase
form, NoSync absent, null or boolean, Type absent, null or one of "default",
"leveldb", "") `ver5to6` succeeds, and `ver6to5` on its result succeeds and
leaves exactly Type = "leveldb", Params = null, NoSync = the original NoSync
value (false when absent or null). -/
theorem roundtrip_old_new_old (lower : String → String)
    (hl0 : lower "" = "") (hlS : lower "Spec" = "spec") (ds : Obj)
    (h : OldSchema lower ds) :
    (ver5to6 lower ds).2 = none ∧
    ver6to5 lower (ver5to6 lower ds).1
      = ([("Type", JVal.str "leveldb"), ("Params", JVal.null),
          ("NoSync", JVal.bool (noSyncOf lower ds))], none) := by
  rw [ver5to6_oldSchema_eq lower hl0 ds h]
  refine ⟨rfl, ?_⟩
  simp only []
  rw [ver6to5_canonical_eq lower "Spec" hlS]
  simp

/-- Witness of C1, the end-to-end example of the spec: NoSync = false,
Type = "leveldb" comes back as Type = "leveldb", Params = null, NoSync = false. -/
theorem roundtrip_old_new_old_witness :
    (ver5to6 asciiLower [("NoSync", JVal.bool false), ("Type", JVal.str "leveldb")]).2 = none ∧
    ver6to5 asciiLower
        (ver5to6 asciiLower [("NoSync", JVal.bool false), ("Type", JVal.str "leveldb")]).1
      = ([("Type", JVal.str "leveldb"), ("Params", JVal.null),
          ("NoSync", JVal.bool false)], none) :=
  roundtrip_old_new_old asciiLower (by decide) (by decide)
    [("NoSync", JVal.bool false), ("Type", JVal.str "leveldb")] (by decide)

/-- C2. Forward result on old-schema input: `ver5to6` succeeds and the
subtree then holds the single key "Spec", bound to DatastoreSpec(NOT noSync);
the Path and Params values are not inspected. -/
theorem ver5to6_oldSchema (lower : String → String) (hl0 : lower "" = "") (ds : Obj)
    (h : OldSchema lower ds) :
    ver5to6 lower ds
      = ([("Spec", JVal.obj (DatastoreSpec (!(noSyncOf lower ds))))], none) :=
  ver5to6_oldSchema_eq lower hl0 ds h

/-- Witness of C2: all four fields present in mixed casing, Path a number and Params a list. -/
theorem ver5to6_oldSchema_witness :
    ver5to6 asciiLower
        [("PATH", JVal.num 7), ("nosync", JVal.bool true), ("Params", JVal.arr [JVal.null]),
          ("tYPE", JVal.str "default")]
      = ([("Spec", JVal.obj (DatastoreSpec false))], none) :=
  ver5to6_oldSchema asciiLower (by decide)
    [("PATH", JVal.num 7), ("nosync", JVal.bool true), ("Params", JVal.arr [JVal.null]),
      ("tYPE", JVal.str "default")] (by decide)

/-- C3 (failing input). A subtree with the single key "" bound to the string
"yes": no key lowercases to "nosync" or "type", yet `ver5to6` reads the value
under "" as the NoSync value and returns the NoSync validation error. -/
theorem ver5to6_empty_key_read_as_nosync :
    NoCaseClash asciiLower [("", JVal.str "yes")] ∧
    (∀ k ∈ keys [("", JVal.str "yes")], asciiLower k ≠ "nosync" ∧ asciiLower k ≠ "type") ∧
    ver5to6 asciiLower [("", JVal.str "yes")]
      = ([("", JVal.str "yes")], some (ConvError.unsupportedNoSync (JVal.str "yes"))) :=
  ⟨by decide, by decide, rfl⟩

/-- C4 (failing input). A subtree with no key whose lowercase form is "spec"
and the canonical structure under the key "": `ver6to5` succeeds and removes
the key "". -/
theorem ver6to5_empty_key_read_as_spec :
    (∀ k ∈ keys [("", JVal.obj (DatastoreSpec true)), ("API", JVal.str "x")],
      asciiLower k ≠ "spec") ∧
    ver6to5 asciiLower [("", JVal.obj (DatastoreSpec true)), ("API", JVal.str "x")]
      = ([("API", JVal.str "x"), ("Type", JVal.str "leveldb"), ("Params", JVal.null),
          ("NoSync", JVal.bool false)], none) :=
  ⟨by decide, rfl⟩

/-- C5. Backward accepts exactly the canonical structure: when the spec value
is a mapping whose mounts are one "/blocks" entry b (child a mapping with
boolean sync = s) and one "/" entry r, in either order, `ver6to5` succeeds if
and only if the spec with its mounts set to [b, r] is deep-equal to
DatastoreSpec(s), and when it is not deep-equal `ver6to5` fails with the
"Datastore.Spec field not of a supported value, can't downgrade" error. -/
theorem ver6to5_accepts_iff_canonical (lower : String → String) (ds spec : Obj)
    (ms : List JVal) (b r : JVal) (s : Bool)
    (hspec : index ds (specKey lower ds) = JVal.obj spec)
    (hms : index spec "mounts" = JVal.arr ms)
    (hord : ms = [b, r] ∨ ms = [r, b])
    (hb : IsBlocksMount s b) (hr : IsRootMount r) :
    ((ver6to5 lower ds).2 = none ↔
      deepEqual (JVal.obj (mapSet spec "mounts" (JVal.arr [b, r])))
        (JVal.obj (DatastoreSpec s)) = true) ∧
    (deepEqual (JVal.obj (mapSet spec "mounts" (JVal.arr [b, r])))
        (JVal.obj (DatastoreSpec s)) = false →
      (ver6to5 lower ds).2 = some ConvError.specNotSupported) := by
  have hscan : scanMounts ms ⟨JVal.null, JVal.null, true⟩ = ScanResult.done ⟨r, b, s⟩ := by
    rcases hord with h | h
    · rw [h, scanMounts_cons_blocks b _ _ s hb, scanMounts_cons_root r _ _ hr]
      rfl
    · rw [h, scanMounts_cons_root r _ _ hr, scanMounts_cons_blocks b _ _ s hb]
      rfl
  rw [ver6to5_of_done lower ds spec ms _ hspec hms hscan]
  cases hde : deepEqual (JVal.obj (mapSet spec "mounts" (JVal.arr [b, r])))
      (JVal.obj (DatastoreSpec s)) <;> simp

/-- Witness of C5: mounts in the order ["/", "/blocks"] with another shard
function; the downgrade is refused with the not-supported error. -/
theorem ver6to5_accepts_iff_canonical_witness :
    (ver6to5 asciiLower
      [("Spec", JVal.obj [("type", JVal.str "mount"),
        ("mounts", JVal.arr [rootMount, otherShardMount true])])]).2
      = some ConvError.specNotSupported :=
  (ver6to5_accepts_iff_canonical asciiLower
    [("Spec", JVal.obj [("type", JVal.str "mount"),
      ("mounts", JVal.arr [rootMount, otherShardMount true])])]
    [("type", JVal.str "mount"), ("mounts", JVal.arr [rootMount, otherShardMount true])]
    [rootMount, otherShardMount true] (otherShardMount true) rootMount true
    rfl rfl (Or.inr rfl) ⟨rfl, rfl⟩ rfl).2 rfl

/-- C6 (failing input). A mounts sequence of three entries, a "/blocks" entry
with another shard function and sync = false followed by the two canonical
entries for sync = true: `ver6to5` succeeds with NoSync = false. -/
theorem ver6to5_three_mounts_accepted :
    ver6to5 asciiLower
      [("Spec", JVal.obj [("type", JVal.str "mount"),
        ("mounts", JVal.arr [otherShardMount false, blocksMount true, rootMount])])]
      = ([("Type", JVal.str "leveldb"), ("Params", JVal.null), ("NoSync", JVal.bool false)],
          none) :=
  rfl

/-- C7 (counterexample). The mounts sequence [1, entry with mountpoint
"/other"] contains an unknown mountpoint, and `ver6to5` fails with the
incompatible-config error of the first entry, not with "unknown mountpoint". -/
theorem ver6to5_unknown_after_malformed :
    hasUnknownMountpoint (JVal.obj [("mountpoint", JVal.str "/other")]) = true ∧
    ver6to5 asciiLower
      [("Spec", JVal.obj [("mounts",
        JVal.arr [JVal.num 1, JVal.obj [("mountpoint", JVal.str "/other")]])])]
      = ([("Spec", JVal.obj [("mounts",
            JVal.arr [JVal.num 1, JVal.obj [("mountpoint", JVal.str "/other")]])])],
          some (ConvError.incompatible ⟨some GoType.float64, GoType.map⟩)) ∧
    (ver6to5 asciiLower
      [("Spec", JVal.obj [("mounts",
        JVal.arr [JVal.num 1, JVal.obj [("mountpoint", JVal.str "/other")]])])]).2
      ≠ some ConvError.unknownMountpoint :=
  ⟨rfl, rfl, fun h => ConvError.noConfusion (Option.some.inj h)⟩

/-- C7 (amended). When the spec is a mapping whose mounts sequence contains an
entry e with a string mountpoint other than "/blocks" and "/", `ver6to5` never
succeeds and leaves the subtree unchanged: it fails with the "unknown
mountpoint" error or with the incompatible-config error, and with the
"unknown mountpoint" error whenever every entry before e has the shape the
traversal asserts. -/
theorem ver6to5_unknown_mountpoint (lower : String → String) (ds spec : Obj)
    (pre post : List JVal) (e : JVal)
    (hspec : index ds (specKey lower ds) = JVal.obj spec)
    (hms : index spec "mounts" = JVal.arr (pre ++ e :: post))
    (he : hasUnknownMountpoint e = true) :
    (ver6to5 lower ds = (ds, some ConvError.unknownMountpoint) ∨
      ∃ r, ver6to5 lower ds = (ds, some (ConvError.incompatible r))) ∧
    ((∀ p ∈ pre, entryOk p = true) →
      ver6to5 lower ds = (ds, some ConvError.unknownMountpoint)) := by
  constructor
  · have hmem : e ∈ pre ++ e :: post := by simp
    rcases scanMounts_not_done_of_unknown _ e ⟨JVal.null, JVal.null, true⟩ hmem he with h | ⟨r, h⟩
    · exact Or.inl (ver6to5_of_unknown lower ds spec _ hspec hms h)
    · exact Or.inr ⟨r, ver6to5_of_fault lower ds spec _ r hspec hms h⟩
  · intro hpre
    exact ver6to5_of_unknown lower ds spec _ hspec hms
      (scanMounts_unknown_of_ok pre e post _ hpre he)

/-- Witness of C7 (amended): the two canonical entries followed by an entry with mountpoint "/other". -/
theorem ver6to5_unknown_mountpoint_witness :
    ver6to5 asciiLower
      [("Spec", JVal.obj [("mounts", JVal.arr [blocksMount true, rootMount,
        JVal.obj [("mountpoint", JVal.str "/other")]])])]
      = ([("Spec", JVal.obj [("mounts", JVal.arr [blocksMount true, rootMount,
            JVal.obj [("mountpoint", JVal.str "/other")]])])],
          some ConvError.unknownMountpoint) :=
  (ver6to5_unknown_mountpoint asciiLower
    [("Spec", JVal.obj [("mounts", JVal.arr [blocksMount true, rootMount,
      JVal.obj [("mountpoint", JVal.str "/other")]])])]
    [("mounts", JVal.arr [blocksMount true, rootMount,
      JVal.obj [("mountpoint", JVal.str "/other")]])]
    [blocksMount true, rootMount] [] (JVal.obj [("mountpoint", JVal.str "/other")])
    rfl rfl rfl).2 (by decide)

/-- C8 (failing input). The subtree with the single key "" bound to the
canonical structure has no key whose lowercase form is "spec", so its spec
value is absent; `ver6to5` nevertheless reads the value under "", returns no
error, and replaces the subtree by Type, Params and NoSync. -/
theorem ver6to5_missing_spec_not_reported :
    (∀ k ∈ keys [("", JVal.obj (DatastoreSpec true))], asciiLower k ≠ "spec") ∧
    valueOf asciiLower [("", JVal.obj (DatastoreSpec true))] "spec" = JVal.null ∧
    ver6to5 asciiLower [("", JVal.obj (DatastoreSpec true))]
      = ([("Type", JVal.str "leveldb"), ("Params", JVal.null), ("NoSync", JVal.bool false)],
          none) :=
  ⟨by decide, rfl, rfl⟩

/-- C9. Order independence of the backward transform: for a mount value b
with mountpoint "/blocks", a mount value r with mountpoint "/" and any other
content of the spec and of the subtree, `ver6to5` on the subtree whose mounts
are [b, r] and on the one whose mounts are [r, b] return the same error, and
when they succeed the resulting subtrees are equal.  The two subtrees have
the same keys in the same order, so this holds for each order in which
`lcMap` may visit them. -/
theorem ver6to5_mount_order (lower : String → String) (ds spec : Obj) (b r : JVal)
    (hspec : index ds (specKey lower ds) = JVal.obj spec)
    (hb : mountpointOf b = some "/blocks") (hr : IsRootMount r) :
    (ver6to5 lower (mapSet ds (specKey lower ds)
        (JVal.obj (mapSet spec "mounts" (JVal.arr [b, r]))))).2
      = (ver6to5 lower (mapSet ds (specKey lower ds)
        (JVal.obj (mapSet spec "mounts" (JVal.arr [r, b]))))).2 ∧
    ((ver6to5 lower (mapSet ds (specKey lower ds)
        (JVal.obj (mapSet spec "mounts" (JVal.arr [b, r]))))).2 = none →
      (ver6to5 lower (mapSet ds (specKey lower ds)
        (JVal.obj (mapSet spec "mounts" (JVal.arr [b, r]))))).1
      = (ver6to5 lower (mapSet ds (specKey lower ds)
        (JVal.obj (mapSet spec "mounts" (JVal.arr [r, b]))))).1) := by
  have hkey : specKey lower ds ∈ keys ds := mem_keys_of_index_obj ds _ spec hspec
  have hk : ∀ v, specKey lower (mapSet ds (specKey lower ds) v) = specKey lower ds :=
    fun v => specKey_mapSet lower ds _ v hkey
  have hsp : ∀ v, index (mapSet ds (specKey lower ds) v)
      (specKey lower (mapSet ds (specKey lower ds) v)) = v := by
    intro v
    rw [hk, index_mapSet]
    simp
  have hmo : ∀ ms, index (mapSet spec "mounts" (JVal.arr ms)) "mounts" = JVal.arr ms := by
    intro ms
    rw [index_mapSet]
    simp
  cases hcs : childSyncOf b with
  | none =>
    have hbad : entryOk b = false := by simp [entryOk, hb, hcs]
    obtain ⟨f, hf⟩ := scanMounts_cons_fault b hbad
    have h1 : scanMounts [b, r] ⟨JVal.null, JVal.null, true⟩ = ScanResult.fault f := hf _ _
    have h2 : scanMounts [r, b] ⟨JVal.null, JVal.null, true⟩ = ScanResult.fault f := by
      rw [scanMounts_cons_root r _ _ hr]
      exact hf _ _
    rw [ver6to5_of_fault lower _ _ _ f (hsp _) (hmo _) h1,
      ver6to5_of_fault lower _ _ _ f (hsp _) (hmo _) h2]
    simp
  | some s =>
    have hbm : IsBlocksMount s b := ⟨hb, hcs⟩
    have h1 : scanMounts [b, r] ⟨JVal.null, JVal.null, true⟩ = ScanResult.done ⟨r, b, s⟩ := by
      rw [scanMounts_cons_blocks b _ _ s hbm, scanMounts_cons_root r _ _ hr]
      rfl
    have h2 : scanMounts [r, b] ⟨JVal.null, JVal.null, true⟩ = ScanResult.done ⟨r, b, s⟩ := by
      rw [scanMounts_cons_root r _ _ hr, scanMounts_cons_blocks b _ _ s hbm]
      rfl
    rw [ver6to5_of_done lower _ _ _ _ (hsp _) (hmo _) h1,
      ver6to5_of_done lower _ _ _ _ (hsp _) (hmo _) h2]
    simp only [hk, mapSet_mapSet]
    simp

/-- Witness of C9: the canonical entries for sync = false under the key "SPEC", in both orders. -/
theorem ver6to5_mount_order_witness :
    (ver6to5 asciiLower [("SPEC", JVal.obj [("type", JVal.str "mount"),
        ("mounts", JVal.arr [blocksMount false, rootMount])])]).2
      = (ver6to5 asciiLower [("SPEC", JVal.obj [("type", JVal.str "mount"),
        ("mounts", JVal.arr [rootMount, blocksMount false])])]).2 ∧
    ((ver6to5 asciiLower [("SPEC", JVal.obj [("type", JVal.str "mount"),
        ("mounts", JVal.arr [blocksMount false, rootMount])])]).2 = none →
      (ver6to5 asciiLower [("SPEC", JVal.obj [("type", JVal.str "mount"),
        ("mounts", JVal.arr [blocksMount false, rootMount])])]).1
      = (ver6to5 asciiLower [("SPEC", JVal.obj [("type", JVal.str "mount"),
        ("mounts", JVal.arr [rootMount, blocksMount false])])]).1) :=
  ver6to5_mount_order asciiLower
    [("SPEC", JVal.obj [("type", JVal.str "mount"), ("mounts", JVal.null)])]
    [("type", JVal.str "mount"), ("mounts", JVal.null)]
    (blocksMount false) rootMount rfl rfl rfl

/-- C10. Builder output downgrades: for every boolean sync and every spelling
k of the spec key, `ver6to5` on the subtree binding k to DatastoreSpec(sync)
succeeds and yields exactly Type = "leveldb", Params = null, NoSync = NOT sync. -/
theorem ver6to5_DatastoreSpec (lower : String → String) (k : String) (sync : Bool)
    (hk : lower k = "spec") :
    ver6to5 lower [(k, JVal.obj (DatastoreSpec sync))]
      = ([("Type", JVal.str "leveldb"), ("Params", JVal.null), ("NoSync", JVal.bool (!sync))],
          none) :=
  ver6to5_canonical_eq lower k hk sync

/-- Witness of C10: the spelling "sPEC" with sync = false. -/
theorem ver6to5_DatastoreSpec_witness :
    ver6to5 asciiLower [("sPEC", JVal.obj (DatastoreSpec false))]
      = ([("Type", JVal.str "leveldb"), ("Params", JVal.null), ("NoSync", JVal.bool true)],
          none) :=
  ver6to5_DatastoreSpec asciiLower "sPEC" false (by decide)

/-- C11. Case-insensitive resolution in the forward transform: let name be
one of "nosync", "type", "path", "params" and let the subtree pre ++ post
have no key whose lowercase form is name.  For two spellings k1, k2 with
lowercase form name (such as "nosync", "NOSYNC", "NoSync") and any value v,
`ver5to6` on the subtree extended with v under k1 and on the subtree extended
with v under k2 returns the same error, and on success the same subtree, in
which no key with lowercase form name remains. -/
theorem ver5to6_case_insensitive (lower : String → String)
    (hl0 : lower "" = "") (hlS : lower "Spec" = "spec") (name : String)
    (hname : name ∈ ["nosync", "type", "path", "params"])
    (pre post : Obj) (v : JVal) (k1 k2 : String)
    (hrest : ∀ k ∈ keys (pre ++ post), lower k ≠ name)
    (h1 : lower k1 = name) (h2 : lower k2 = name) :
    (ver5to6 lower (pre ++ (k1, v) :: post)).2 = (ver5to6 lower (pre ++ (k2, v) :: post)).2 ∧
    ((ver5to6 lower (pre ++ (k1, v) :: post)).2 = none →
      (ver5to6 lower (pre ++ (k1, v) :: post)).1 = (ver5to6 lower (pre ++ (k2, v) :: post)).1 ∧
      ∀ k, lower k = name → k ∉ keys (ver5to6 lower (pre ++ (k1, v) :: post)).1) := by
  have hne0 : ∀ k, lower k = name → k ≠ "" := by
    intro k hk e
    rw [e, hl0] at hk
    rw [← hk] at hname
    revert hname
    decide
  have hnot : ∀ k, lower k = name → k ∉ keys pre ∧ k ∉ keys post := by
    intro k hk
    constructor
    · intro hin
      exact hrest k (by simp only [keys, List.map_append, List.mem_append] at hin ⊢; exact Or.inl hin) hk
    · intro hin
      exact hrest k (by simp only [keys, List.map_append, List.mem_append] at hin ⊢; exact Or.inr hin) hk
  have hmem : k1 ∈ keys (pre ++ (k1, v) :: post) := by simp [keys]
  have huniq : ∀ k ∈ keys (pre ++ (k1, v) :: post), lower k = name → k = k1 := by
    intro k hin hk
    simp only [keys, List.map_append, List.map_cons, List.mem_append, List.mem_cons] at hin
    rcases hin with hin | hin | hin
    · exact absurd hin (hnot k hk).1
    · exact hin
    · exact absurd hin (hnot k hk).2
  have hclass := ver5to6_class_removed lower hlS (pre ++ (k1, v) :: post) k1 name hname h1
    hmem huniq
  by_cases hkk : k2 = k1
  · subst hkk
    exact ⟨rfl, fun hok => ⟨rfl, hclass hok⟩⟩
  · have hk2m : k2 ∉ keys (pre ++ (k1, v) :: post) := by
      intro hin
      exact hkk (huniq k2 hin h2)
    have hren : renameKey k1 k2 (pre ++ (k1, v) :: post) = pre ++ (k2, v) :: post := by
      have e1 := renameKey_of_not_mem pre k1 k2 (hnot k1 h1).1
      have e2 := renameKey_of_not_mem post k1 k2 (hnot k1 h1).2
      simp only [renameKey] at e1 e2 ⊢
      simp [List.map_append, e1, e2]
    have := ver5to6_renameKey lower (pre ++ (k1, v) :: post) k1 k2 name hname h1 h2
      (hne0 k1 h1) (hne0 k2 h2) hmem huniq hk2m
    rw [hren] at this
    exact ⟨this.1.symm, fun hok => ⟨(this.2 hok).symm, hclass hok⟩⟩

/-- Witness of C11: a Type and a Path field around the value true stored
under "nosync" and under "NOSYNC". -/
theorem ver5to6_case_insensitive_witness :
    (ver5to6 asciiLower
        ([("Type", JVal.str "leveldb")] ++ ("nosync", JVal.bool true) ::
          [("Path", JVal.str "p")])).2
      = (ver5to6 asciiLower
        ([("Type", JVal.str "leveldb")] ++ ("NOSYNC", JVal.bool true) ::
          [("Path", JVal.str "p")])).2 ∧
    ((ver5to6 asciiLower
        ([("Type", JVal.str "leveldb")] ++ ("nosync", JVal.bool true) ::
          [("Path", JVal.str "p")])).2 = none →
      (ver5to6 asciiLower
        ([("Type", JVal.str "leveldb")] ++ ("nosync", JVal.bool true) ::
          [("Path", JVal.str "p")])).1
      = (ver5to6 asciiLower
        ([("Type", JVal.str "leveldb")] ++ ("NOSYNC", JVal.bool true) ::
          [("Path", JVal.str "p")])).1 ∧
      ∀ k, asciiLower k = "nosync" →
        k ∉ keys (ver5to6 asciiLower
          ([("Type", JVal.str "leveldb")] ++ ("nosync", JVal.bool true) ::
            [("Path", JVal.str "p")])).1) :=
  ver5to6_case_insensitive asciiLower (by decide) (by decide) "nosync" (by decide)
    [("Type", JVal.str "leveldb")] [("Path", JVal.str "p")] (JVal.bool true)
    "nosync" "NOSYNC" (by decide) (by decide) (by decide)

/-- C12 (failing input). The subtree with the keys "", NoSync and Type has no
case clash and its key "" is neither "Spec" nor a casing of an old field, yet
a successful `ver5to6` leaves only "Spec": the key "" is deleted. -/
theorem ver5to6_empty_key_not_passed_through :
    NoCaseClash asciiLower
      [("", JVal.num 1), ("NoSync", JVal.bool false), ("Type", JVal.str "leveldb")] ∧
    asciiLower "" ∉ ["nosync", "type", "path", "params"] ∧
    ver5to6 asciiLower
        [("", JVal.num 1), ("NoSync", JVal.bool false), ("Type", JVal.str "leveldb")]
      = ([("Spec", JVal.obj (DatastoreSpec true))], none) :=
  ⟨by decide, by decide, rfl⟩

/-- C13. Shape of the canonical spec: for every boolean sync,
DatastoreSpec(sync) has exactly the fields type = "mount" and mounts, the
mounts being two entries in the order [mountpoint "/blocks", mountpoint "/"];
the "/blocks" entry's child.sync is sync; with that one field removed the
structure no longer depends on sync; and DatastoreSpec(a) = DatastoreSpec(b)
only if a = b. -/
theorem DatastoreSpec_shape (sync : Bool) :
    keys (DatastoreSpec sync) = ["type", "mounts"] ∧
    index (DatastoreSpec sync) "type" = JVal.str "mount" ∧
    index (DatastoreSpec sync) "mounts" = JVal.arr [blocksMount sync, rootMount] ∧
    mountpointOf (blocksMount sync) = some "/blocks" ∧
    mountpointOf rootMount = some "/" ∧
    childSyncOf (blocksMount sync) = some sync ∧
    dropBlocksSync (DatastoreSpec sync) = dropBlocksSync (DatastoreSpec true) ∧
    dropBlocksSync (DatastoreSpec true) = dropBlocksSync (DatastoreSpec false) ∧
    (∀ a b, DatastoreSpec a = DatastoreSpec b → a = b) := by
  refine ⟨rfl, rfl, rfl, rfl, rfl, rfl, ?_, rfl, ?_⟩
  · cases sync <;> rfl
  · intro a b h
    simpa [DatastoreSpec] using h

/-- C14. Key resolver contract: the keys of lcMap(m) are exactly the
lowercase forms of the keys of m; every entry (l, k) of lcMap(m) has k a key
of m with lowercase form l; when no two keys of m share a lowercase form,
lcMap(m) maps the lowercase form of every key of m to that key; and lcMap of
the empty mapping is empty.  `lcMap` only reads m: its result is the new map. -/
theorem lcMap_contract {α : Type} (lower : String → String) (m : GoMap α) :
    (∀ l, l ∈ keys (lcMap lower m) ↔ ∃ k ∈ keys m, lower k = l) ∧
    (∀ l k, (l, k) ∈ lcMap lower m → k ∈ keys m ∧ lower k = l) ∧
    (NoCaseClash lower m → ∀ k ∈ keys m, mapGet? (lcMap lower m) (lower k) = some k) ∧
    lcMap lower ([] : GoMap α) = [] := by
  refine ⟨?_, ?_, ?_, rfl⟩
  · intro l
    have := lcFold_mem_keys lower m [] l
    simpa [lcMap, keys] using this
  · intro l k h
    rcases lcFold_mem lower m [] (l, k) h with h1 | h1
    · cases h1
    · exact h1
  · intro hnd k hk
    exact lcFold_get_of_mem lower m [] k hnd hk

/-- Witness of C14: three keys in mixed casing, each found again under its lowercase form. -/
theorem lcMap_contract_witness :
    ∀ k ∈ keys [("NoSync", JVal.null), ("TYPE", JVal.null), ("path", JVal.null)],
      mapGet? (lcMap asciiLower [("NoSync", JVal.null), ("TYPE", JVal.null), ("path", JVal.null)])
        (asciiLower k) = some k :=
  (lcMap_contract asciiLower
    [("NoSync", JVal.null), ("TYPE", JVal.null), ("path", JVal.null)]).2.2.1 (by decide)

/-- C15. The orchestrator touches only the datastore subtree: when k is the
one key of the parsed document whose lowercase form is "datastore" and its
value is a mapping ds, then for a transform f that succeeds on ds `convert`
emits the document with the value under k replaced by the transformed
subtree, with the same keys in the same spelling and every other value
unchanged; and for a transform that fails on ds `convert` returns that error
and emits nothing. -/
theorem convert_datastore_only (lower : String → String) (conf ds : Obj) (k : String)
    (f : Obj → Obj × Option ConvError)
    (hk : lower k = "datastore")
    (huniq : ∀ k' ∈ keys conf, lower k' = "datastore" → k' = k)
    (hv : mapGet? conf k = some (JVal.obj ds)) :
    (∀ out, f ds = (out, none) →
      convert lower conf f = ConvertResult.emitted (mapSet conf k (JVal.obj out)) ∧
      keys (mapSet conf k (JVal.obj out)) = keys conf ∧
      ∀ k', mapGet? (mapSet conf k (JVal.obj out)) k'
        = if k = k' then some (JVal.obj out) else mapGet? conf k') ∧
    (∀ out err, f ds = (out, some err) → convert lower conf f = ConvertResult.failed err) := by
  have hmem : k ∈ keys conf := mem_keys_of_mapGet? conf k _ hv
  have hres : indexStr (lcMap lower conf) "datastore" = k := by
    have := (indexStr_lcMap_of_unique lower conf k hmem (by rw [hk]; exact huniq)).2
    rw [hk] at this
    exact this
  have hidx : index conf k = JVal.obj ds := by simp [index, hv]
  constructor
  · intro out hf
    refine ⟨?_, keys_mapSet_of_mem conf k _ hmem, fun k' => mapGet?_mapSet conf k k' _⟩
    simp only [convert, hres, hidx, assertMap, hf]
  · intro out err hf
    simp only [convert, hres, hidx, assertMap, hf]

/-- Witness of C15: the forward transform run on a document with the keys "API" and "DATASTORE". -/
theorem convert_datastore_only_witness :
    convert asciiLower
        [("API", JVal.str "x"), ("DATASTORE", JVal.obj [("NoSync", JVal.bool true)])]
        (ver5to6 asciiLower)
      = ConvertResult.emitted
          [("API", JVal.str "x"), ("DATASTORE", JVal.obj [("Spec", JVal.obj (DatastoreSpec false))])] :=
  ((convert_datastore_only asciiLower
    [("API", JVal.str "x"), ("DATASTORE", JVal.obj [("NoSync", JVal.bool true)])]
    [("NoSync", JVal.bool true)] "DATASTORE" (ver5to6 asciiLower)
    (by decide) (by decide) rfl).1 [("Spec", JVal.obj (DatastoreSpec false))] rfl).1

/-- C16 (failing input). On the empty document and on a document whose
Datastore value is a number the type assertion of `convert` panics and
nothing recovers it; on a document with no datastore key and a mapping under
the key "" that mapping is converted as the datastore subtree. -/
theorem convert_lookup_failure_panics :
    convert asciiLower [] (ver5to6 asciiLower)
      = ConvertResult.panicked ⟨none, GoType.map⟩ ∧
    convert asciiLower [("Datastore", JVal.num 5)] (ver6to5 asciiLower)
      = ConvertResult.panicked ⟨some GoType.float64, GoType.map⟩ ∧
    convert asciiLower [("", JVal.obj [("NoSync", JVal.bool true)])] (ver5to6 asciiLower)
      = ConvertResult.emitted [("", JVal.obj [("Spec", JVal.obj (DatastoreSpec false))])] :=
  ⟨rfl, rfl, rfl⟩

/-- C17 (failing input). The spec S with the three mounts [B', B, R], B' a
"/blocks" entry with another shard function: `ver6to5` succeeds, the
following `ver5to6` installs DatastoreSpec(true), whose mounts are [B, R],
and S, whose mounts already stand in the order "/blocks" before "/", is not
deep-equal to it. -/
theorem roundtrip_drops_repeated_mount :
    (ver6to5 asciiLower
      [("Spec", JVal.obj [("type", JVal.str "mount"),
        ("mounts", JVal.arr [otherShardMount false, blocksMount true, rootMount])])]).2 = none ∧
    ver5to6 asciiLower (ver6to5 asciiLower
      [("Spec", JVal.obj [("type", JVal.str "mount"),
        ("mounts", JVal.arr [otherShardMount false, blocksMount true, rootMount])])]).1
      = ([("Spec", JVal.obj (DatastoreSpec true))], none) ∧
    index (DatastoreSpec true) "mounts" = JVal.arr [blocksMount true, rootMount] ∧
    deepEqual (JVal.obj [("type", JVal.str "mount"),
        ("mounts", JVal.arr [otherShardMount false, blocksMount true, rootMount])])
      (JVal.obj (DatastoreSpec true)) = false :=
  ⟨rfl, rfl, rfl, rfl⟩

/-- C18 (failing input). The subtree with the keys "" and Type has no key
whose lowercase form is "nosync"; `ver5to6` reads the value under "" as the
NoSync value, deletes the key "" and then fails with the Type validation
error, leaving the subtree without its key "". -/
theorem ver5to6_type_error_deletes_empty_key :
    (∀ k ∈ keys [("", JVal.bool true), ("Type", JVal.str "flatfs")],
      asciiLower k ≠ "nosync") ∧
    ver5to6 asciiLower [("", JVal.bool true), ("Type", JVal.str "flatfs")]
      = ([("Type", JVal.str "flatfs")], some (ConvError.unsupportedType "flatfs")) ∧
    mapGet? (ver5to6 asciiLower [("", JVal.bool true), ("Type", JVal.str "flatfs")]).1 ""
      = none ∧
    mapGet? [("", JVal.bool true), ("Type", JVal.str "flatfs")] "" = some (JVal.bool true) :=
  ⟨by decide, rfl, rfl, rfl⟩

/-- C19 (failing input). The subtree with the keys "" and API has no key
whose lowercase form is "spec"; `ver6to5` reads the mapping under "" as the
spec, assigns [null, null] to its mounts field and then fails with the "not
of a supported value" error, leaving the value under "" changed. -/
theorem ver6to5_mismatch_rewrites_empty_key :
    (∀ k ∈ keys [("", JVal.obj [("mounts", JVal.arr [])]), ("API", JVal.str "x")],
      asciiLower k ≠ "spec") ∧
    ver6to5 asciiLower [("", JVal.obj [("mounts", JVal.arr [])]), ("API", JVal.str "x")]
      = ([("", JVal.obj [("mounts", JVal.arr [JVal.null, JVal.null])]), ("API", JVal.str "x")],
          some ConvError.specNotSupported) :=
  ⟨by decide, rfl⟩

/-- C20. The forward transform is not idempotent and does not detect an
already-migrated subtree: on a subtree with no key whose lowercase form is
"nosync" or "type" and without the key "", `ver5to6` succeeds and binds
"Spec" to DatastoreSpec(true) whatever was under "Spec"; applied once to
NoSync = true it gives Spec = DatastoreSpec(false), applied again it gives
Spec = DatastoreSpec(true), and the two differ. -/
theorem ver5to6_not_idempotent (lower : String → String)
    (hlN : lower "NoSync" = "nosync") (hlS : lower "Spec" = "spec") :
    (∀ ds : Obj, (∀ k ∈ keys ds, lower k ≠ "nosync" ∧ lower k ≠ "type") → "" ∉ keys ds →
      (ver5to6 lower ds).2 = none ∧
      mapGet? (ver5to6 lower ds).1 "Spec" = some (JVal.obj (DatastoreSpec true))) ∧
    ver5to6 lower [("NoSync", JVal.bool true)]
      = ([("Spec", JVal.obj (DatastoreSpec false))], none) ∧
    ver5to6 lower (ver5to6 lower [("NoSync", JVal.bool true)]).1
      = ([("Spec", JVal.obj (DatastoreSpec true))], none) ∧
    DatastoreSpec true ≠ DatastoreSpec false := by
  have hfirst : ver5to6 lower [("NoSync", JVal.bool true)]
      = ([("Spec", JVal.obj (DatastoreSpec false))], none) := by
    simp [ver5to6, lcMap, mapSet, indexStr, mapGet?, index, mapDelete, hlN]
  refine ⟨?_, hfirst, ?_, by simp [DatastoreSpec]⟩
  · intro ds hkeys h0
    have hn : indexStr (lcMap lower ds) "nosync" = "" :=
      indexStr_lcMap_of_not_mem lower ds "nosync" (fun k hk => (hkeys k hk).1)
    have ht : indexStr (lcMap lower ds) "type" = "" :=
      indexStr_lcMap_of_not_mem lower ds "type" (fun k hk => (hkeys k hk).2)
    have hv : index ds "" = JVal.null := by simp [index, mapGet?_eq_none ds "" h0]
    rcases ver5to6_cases lower ds with ⟨v, _, hv1, hv2⟩ | ⟨t, _, _, ht2⟩ | ⟨b, h, hb, _⟩
    · rw [hn, hv] at hv1
      rw [hv1] at hv2
      cases hv2
    · rw [hn, ht, index_mapDelete] at ht2
      simp [JVal.isNullOrKnownType] at ht2
    · rw [hn, hv] at hb
      have hb' : b = false := by
        rcases hb with hb | ⟨_, hb⟩
        · cases hb
        · exact hb
      subst hb'
      rw [h]
      exact ⟨rfl, by simp [mapGet?_mapSet]⟩
  · rw [hfirst]
    simp [ver5to6, lcMap, mapSet, indexStr, mapGet?, index, mapDelete, hlS]

/-- Witness of C20: a subtree already holding a Spec for sync = false, and a Path. -/
theorem ver5to6_not_idempotent_witness :
    (ver5to6 asciiLower [("Spec", JVal.obj (DatastoreSpec false)), ("Path", JVal.str "p")]).2
      = none ∧
    mapGet? (ver5to6 asciiLower
        [("Spec", JVal.obj (DatastoreSpec false)), ("Path", JVal.str "p")]).1 "Spec"
      = some (JVal.obj (DatastoreSpec true)) :=
  (ver5to6_not_idempotent asciiLower (by decide) (by decide)).1
    [("Spec", JVal.obj (DatastoreSpec false)), ("Path", JVal.str "p")] (by decide) (by decide)

end Migrate
